import Mathlib

/-!
Verification development for the `d1-rest` REST-to-SQL gateway.

The embedding follows the TypeScript source: `sanitizeIdentifier`,
`sanitizeKeyword`, `handleGet`, `handlePost`, `handleUpdate`, `handleDelete`
(REST handler module) and `hydrateValue`, `hydrateRow` (helpers module).

Modelling conventions, stated once here:
* JavaScript runtime values carried by JSON bodies are modelled by `JValue`
  (null / boolean / number / string / array / object).  JSON numbers are
  modelled as integers (`Int`): the claims under study never depend on
  non-integral numerics, and IEEE floating point is out of scope.
* A possibly-`undefined` JavaScript value is `Option JValue` (`none` =
  `undefined`).
* SQLite/D1 storage scalars are `SValue` (NULL / INTEGER / TEXT).
* `JSON.stringify` is modelled by `serJ` (the canonical, whitespace-free
  serialization `JSON.stringify` actually produces, with the same escape
  rules).  `JSON.parse` is modelled by `jsonParse`, a total recursive-descent
  parser for that canonical grammar; this is the behaviour of `JSON.parse`
  on every string the write direction can store.
* The storage engine (Cloudflare D1 / SQLite, external to the repository) is
  modelled by list-based evaluation of the built statements: equality
  filtering without column affinity, `ORDER BY` by a total order on `SValue`
  (NULL < INTEGER < TEXT), `LIMIT`/`OFFSET` as take/drop.
-/

set_option maxRecDepth 8000

namespace D1Rest

/-! ### Characters and identifier sanitization -/

/-- Characters the sanitizer keeps: the regex class `[A-Za-z0-9_]`. -/
def isIdentChar (c : Char) : Bool :=
  (97 ≤ c.toNat && c.toNat ≤ 122) || (65 ≤ c.toNat && c.toNat ≤ 90) ||
    (48 ≤ c.toNat && c.toNat ≤ 57) || c.toNat == 95

/-- Source `sanitizeIdentifier`: `identifier.replace(/[^a-zA-Z0-9_]/g, "")`,
i.e. every character outside `[A-Za-z0-9_]` is removed. -/
def sanitizeIdentifier (s : String) : String :=
  ⟨s.data.filter isIdentChar⟩

/-- Source `sanitizeKeyword`: backtick-quote the sanitized identifier. -/
def sanitizeKeyword (s : String) : String :=
  "`" ++ sanitizeIdentifier s ++ "`"

/-- ASCII decimal digit test (the only digits relevant to the JS code paths). -/
def isDig (c : Char) : Bool := 48 ≤ c.toNat && c.toNat ≤ 57

/-- The digit character for `n < 10`. -/
def digitChar (n : Nat) : Char := Char.ofNat (48 + n)

/-- Decimal digit characters of a natural number, most significant first. -/
def natDigits (n : Nat) : List Char :=
  if n < 10 then [digitChar n]
  else natDigits (n / 10) ++ [digitChar (n % 10)]
termination_by n
decreasing_by exact Nat.div_lt_self (by omega) (by omega)

/-- Numeric value of a digit run. -/
def digitsToNat (ds : List Char) : Nat :=
  ds.foldl (fun a c => a * 10 + (c.toNat - 48)) 0

/-- Decimal character run of an integer (optional minus sign, then digits). -/
def serInt (i : Int) : List Char :=
  if i < 0 then '-' :: natDigits i.natAbs else natDigits i.natAbs

/-! ### JavaScript-level and storage-level values -/

/-- A JSON-shaped JavaScript value (numbers restricted to integers). -/
inductive JValue : Type where
  | null : JValue
  | bool (b : Bool) : JValue
  | num (n : Int) : JValue
  | str (s : String) : JValue
  | arr (xs : List JValue) : JValue
  | obj (fs : List (String × JValue)) : JValue

/-- A SQLite storage scalar as surfaced by D1. -/
inductive SValue : Type where
  | null : SValue
  | int (n : Int) : SValue
  | text (s : String) : SValue
deriving DecidableEq

/-- A value as handed to `.bind(...)`: a storage scalar, the JS number `NaN`,
or JS `undefined` (which D1 rejects at bind time). -/
inductive BindVal : Type where
  | sv (v : SValue) : BindVal
  | nan : BindVal
  | undef : BindVal
deriving DecidableEq

/-! ### The canonical JSON serialization (`JSON.stringify`) -/

/-- The left-brace character, kept out of literals. -/
def lbrace : Char := Char.ofNat 123

/-- The right-brace character, kept out of literals. -/
def rbrace : Char := Char.ofNat 125

/-- The double-quote character. -/
def dqc : Char := Char.ofNat 34

/-- The backslash character. -/
def bsc : Char := Char.ofNat 92

/-- Lower-case hex digit character for `n < 16` (as `JSON.stringify` emits). -/
def hexChar (n : Nat) : Char :=
  if n < 10 then Char.ofNat (48 + n) else Char.ofNat (87 + n)

/-- `JSON.stringify`'s escaping of one string character: `\"`, `\\`, the
short escapes `\b \t \n \f \r`, `\u00xx` for the remaining control
characters, and everything else verbatim. -/
def escChar (c : Char) : List Char :=
  if c = dqc then [bsc, dqc]
  else if c = bsc then [bsc, bsc]
  else if c.toNat = 8 then [bsc, 'b']
  else if c.toNat = 9 then [bsc, 't']
  else if c.toNat = 10 then [bsc, 'n']
  else if c.toNat = 12 then [bsc, 'f']
  else if c.toNat = 13 then [bsc, 'r']
  else if c.toNat < 32 then [bsc, 'u', '0', '0', hexChar (c.toNat / 16), hexChar (c.toNat % 16)]
  else [c]

/-- Escape a whole character list. -/
def escList : List Char → List Char
  | [] => []
  | c :: cs => escChar c ++ escList cs

/-- A serialized JSON string literal: quote, escaped body, quote. -/
def serStr (s : String) : List Char := dqc :: (escList s.data ++ [dqc])

mutual
/-- Canonical serialization of a value (what `JSON.stringify` emits). -/
def serJ : JValue → List Char
  | .null => "null".data
  | .bool true => "true".data
  | .bool false => "false".data
  | .num n => serInt n
  | .str s => serStr s
  | .arr xs => '[' :: (serElems xs ++ [']'])
  | .obj fs => lbrace :: (serMems fs ++ [rbrace])
/-- Comma-separated serialization of array elements. -/
def serElems : List JValue → List Char
  | [] => []
  | [v] => serJ v
  | v :: w :: tl => serJ v ++ ',' :: serElems (w :: tl)
/-- Comma-separated serialization of object members (`"key":value`). -/
def serMems : List (String × JValue) → List Char
  | [] => []
  | [(k, v)] => serStr k ++ ':' :: serJ v
  | (k, v) :: m :: tl => serStr k ++ ':' :: serJ v ++ ',' :: serMems (m :: tl)
end

mutual
/-- A structural size used as a fuel bound for the parser. -/
def sizeJ : JValue → Nat
  | .arr xs => 1 + sizeElems xs
  | .obj fs => 1 + sizeMems fs
  | _ => 1
/-- Size of an element list. -/
def sizeElems : List JValue → Nat
  | [] => 0
  | v :: tl => 1 + sizeJ v + sizeElems tl
/-- Size of a member list. -/
def sizeMems : List (String × JValue) → Nat
  | [] => 0
  | (_, v) :: tl => 1 + sizeJ v + sizeMems tl
end

/-! ### The parser (`JSON.parse` on the canonical grammar) -/

/-- Hex digit value of a character, if any. -/
def hexVal (c : Char) : Option Nat :=
  if 48 ≤ c.toNat && c.toNat ≤ 57 then some (c.toNat - 48)
  else if 97 ≤ c.toNat && c.toNat ≤ 102 then some (c.toNat - 87)
  else if 65 ≤ c.toNat && c.toNat ≤ 70 then some (c.toNat - 55)
  else none

/-- Parse a string body after the opening quote, up to the closing quote,
undoing the escapes; rejects raw control characters as `JSON.parse` does. -/
def parseStrAux : List Char → Option (List Char × List Char)
  | [] => none
  | c :: cs =>
    if c = dqc then some ([], cs)
    else if c = bsc then
      match cs with
      | [] => none
      | e :: cs2 =>
        if e = dqc then (parseStrAux cs2).map (fun p => (dqc :: p.1, p.2))
        else if e = bsc then (parseStrAux cs2).map (fun p => (bsc :: p.1, p.2))
        else if e = '/' then (parseStrAux cs2).map (fun p => ('/' :: p.1, p.2))
        else if e = 'b' then (parseStrAux cs2).map (fun p => (Char.ofNat 8 :: p.1, p.2))
        else if e = 't' then (parseStrAux cs2).map (fun p => (Char.ofNat 9 :: p.1, p.2))
        else if e = 'n' then (parseStrAux cs2).map (fun p => (Char.ofNat 10 :: p.1, p.2))
        else if e = 'f' then (parseStrAux cs2).map (fun p => (Char.ofNat 12 :: p.1, p.2))
        else if e = 'r' then (parseStrAux cs2).map (fun p => (Char.ofNat 13 :: p.1, p.2))
        else if e = 'u' then
          match cs2 with
          | h1 :: h2 :: h3 :: h4 :: cs3 =>
            match hexVal h1, hexVal h2, hexVal h3, hexVal h4 with
            | some a, some b, some c3, some d =>
              (parseStrAux cs3).map
                (fun p => (Char.ofNat (a * 4096 + b * 256 + c3 * 16 + d) :: p.1, p.2))
            | _, _, _, _ => none
          | _ => none
        else none
    else if c.toNat < 32 then none
    else (parseStrAux cs).map (fun p => (c :: p.1, p.2))

/-- Parse the leading digit run as a (non-negative) integer literal. -/
def parseDigitRun (cs : List Char) : Option (Nat × List Char) :=
  let ds := cs.takeWhile isDig
  if ds.isEmpty then none else some (digitsToNat ds, cs.dropWhile isDig)

/-- Parse an integer literal (optional minus sign, then a digit run). -/
def parseIntLit (cs : List Char) : Option (JValue × List Char) :=
  match cs with
  | [] => none
  | c :: rest =>
    if c = '-' then (parseDigitRun rest).map (fun p => (.num (-(p.1 : Int)), p.2))
    else (parseDigitRun (c :: rest)).map (fun p => (.num (p.1 : Int), p.2))

mutual
/-- Recursive-descent parse of one canonical JSON value; `fuel` only bounds
recursion depth and is immaterial whenever it is large enough. -/
def parseVal : Nat → List Char → Option (JValue × List Char)
  | 0, _ => none
  | fuel + 1, cs =>
    match cs with
    | [] => none
    | c :: rest =>
      if c = 'n' then
        match rest with
        | u1 :: u2 :: u3 :: r =>
          if u1 = 'u' then if u2 = 'l' then if u3 = 'l' then some (.null, r)
            else none else none else none
        | _ => none
      else if c = 't' then
        match rest with
        | u1 :: u2 :: u3 :: r =>
          if u1 = 'r' then if u2 = 'u' then if u3 = 'e' then some (.bool true, r)
            else none else none else none
        | _ => none
      else if c = 'f' then
        match rest with
        | u1 :: u2 :: u3 :: u4 :: r =>
          if u1 = 'a' then if u2 = 'l' then if u3 = 's' then if u4 = 'e' then
            some (.bool false, r) else none else none else none else none
        | _ => none
      else if c = dqc then (parseStrAux rest).map (fun p => (.str ⟨p.1⟩, p.2))
      else if c = '[' then
        match rest with
        | [] => none
        | d :: r2 =>
          if d = ']' then some (.arr [], r2)
          else (parseElems fuel (d :: r2)).map (fun p => (.arr p.1, p.2))
      else if c = lbrace then
        match rest with
        | [] => none
        | d :: r2 =>
          if d = rbrace then some (.obj [], r2)
          else (parseMems fuel (d :: r2)).map (fun p => (.obj p.1, p.2))
      else if c = '-' || isDig c then parseIntLit (c :: rest)
      else none
/-- Parse one or more comma-separated elements up to the closing bracket. -/
def parseElems : Nat → List Char → Option (List JValue × List Char)
  | 0, _ => none
  | fuel + 1, cs =>
    match parseVal fuel cs with
    | none => none
    | some (v, r) =>
      match r with
      | [] => none
      | d :: r2 =>
        if d = ',' then (parseElems fuel r2).map (fun p => (v :: p.1, p.2))
        else if d = ']' then some ([v], r2)
        else none
/-- Parse one or more comma-separated `"key":value` members up to the
closing brace. -/
def parseMems : Nat → List Char → Option (List (String × JValue) × List Char)
  | 0, _ => none
  | fuel + 1, cs =>
    match cs with
    | [] => none
    | c :: rest =>
      if c = dqc then
        match parseStrAux rest with
        | none => none
        | some (k, r1) =>
          match r1 with
          | ':' :: r2 =>
            match parseVal fuel r2 with
            | none => none
            | some (v, r3) =>
              match r3 with
              | [] => none
              | d :: r4 =>
                if d = ',' then
                  (parseMems fuel r4).map (fun p => ((⟨k⟩, v) :: p.1, p.2))
                else if d = rbrace then some ([(⟨k⟩, v)], r4)
                else none
          | _ => none
      else none
end

/-- The model of `JSON.parse` on whole strings: the parse must consume the
entire input. -/
def jsonParse (s : String) : Option JValue :=
  match parseVal (s.data.length + 1) s.data with
  | some (v, []) => some v
  | _ => none

/-- The model of `JSON.stringify` on whole values. -/
def jsonStringify (v : JValue) : String := ⟨serJ v⟩

/-! ### Write-direction value coercion (`handlePost` / `handleUpdate`) -/

/-- JavaScript truthiness of a JSON-shaped value. -/
def jsTruthy : JValue → Bool
  | .null => false
  | .bool b => b
  | .num n => n != 0
  | .str s => !s.isEmpty
  | .arr _ => true
  | .obj _ => true

/-- The payload check in `handlePost`:
`!data || typeof data !== "object" || Array.isArray(data)` rejects everything
but a plain object. -/
def postValid : JValue → Bool
  | .obj _ => true
  | _ => false

/-- The payload check in `handleUpdate` (same expression in the source). -/
def updateValid : JValue → Bool
  | .obj _ => true
  | _ => false

/-- `handlePost`'s per-value coercion of `data[col]` (which may be
`undefined`, the `none` case): objects/arrays are `JSON.stringify`ed,
booleans become 1/0, `undefined`/`null` become NULL, scalars pass through. -/
def postCoerceVal : Option JValue → SValue
  | some (.obj fs) => .text (jsonStringify (.obj fs))
  | some (.arr xs) => .text (jsonStringify (.arr xs))
  | some (.bool b) => .int (if b then 1 else 0)
  | none => .null
  | some .null => .null
  | some (.num n) => .int n
  | some (.str s) => .text s

/-- `handleUpdate`'s per-value coercion: objects/arrays are `JSON.stringify`ed,
booleans become 1/0, and everything else — including `undefined` — is
returned unchanged (there is no `undefined`/`null` branch in the source). -/
def updateCoerceVal : Option JValue → BindVal
  | some (.obj fs) => .sv (.text (jsonStringify (.obj fs)))
  | some (.arr xs) => .sv (.text (jsonStringify (.arr xs)))
  | some (.bool b) => .sv (.int (if b then 1 else 0))
  | none => .undef
  | some .null => .sv .null
  | some (.num n) => .sv (.int n)
  | some (.str s) => .sv (.text s)

/-- A payload object is an ordered list of key/value fields. -/
abbrev Payload := List (String × JValue)

/-- `Object.keys` of a payload. -/
def keysOf (p : Payload) : List String := p.map Prod.fst

/-- JS property lookup `data[k]`: `none` is `undefined`. -/
def jsLookup (p : Payload) (k : String) : Option JValue :=
  (p.find? (fun kv => kv.1 == k)).map Prod.snd

/-- `handlePost`'s column list: `Object.keys(data).map(sanitizeIdentifier)`. -/
def postColumns (p : Payload) : List String := (keysOf p).map sanitizeIdentifier

/-- `handleUpdate`'s column list (same expression in the source). -/
def updateColumns (p : Payload) : List String := (keysOf p).map sanitizeIdentifier

/-- `handlePost`'s bound parameters: the coerced `data[col]` for each
sanitized column. -/
def postParams (p : Payload) : List SValue :=
  (postColumns p).map (fun col => postCoerceVal (jsLookup p col))

/-- `handleUpdate`'s bound parameters for the SET columns. -/
def updateParams (p : Payload) : List BindVal :=
  (updateColumns p).map (fun col => updateCoerceVal (jsLookup p col))

/-- Join strings with `", "` (models `Array.prototype.join(", ")`). -/
def joinCommaSp : List String → String
  | [] => ""
  | [s] => s
  | s :: t :: tl => s ++ ", " ++ joinCommaSp (t :: tl)

/-- The INSERT statement text built by `handlePost`. -/
def postText (tn : String) (p : Payload) : String :=
  "INSERT INTO " ++ sanitizeKeyword tn ++ " (" ++ joinCommaSp (postColumns p) ++
    ") VALUES (" ++ joinCommaSp ((postColumns p).map (fun _ => "?")) ++ ")"

/-- The identifier returned in `handlePost`'s success response:
`data.slug || result.meta.last_row_id` (JS truthiness on `data.slug`). -/
def postRespId (p : Payload) (lastRowId : Int) : JValue :=
  match jsLookup p "slug" with
  | some v => if jsTruthy v then v else .num lastRowId
  | none => .num lastRowId

/-! ### Read-direction hydration (`hydrateValue` / `hydrateRow`) -/

/-- The test `value[0] === "\x7b" || value[0] === "["` on a string (an empty
string has no first character, hence `false`). -/
def strHeadIsBrace (s : String) : Bool :=
  match s.data with
  | [] => false
  | c :: _ => c = lbrace || c = '['

/-- Source `hydrateValue` on a storage scalar: NULL passes through, the
integers 0/1 become booleans unconditionally, a string starting with a brace
or bracket is `JSON.parse`d (falling back to the string on failure), and
everything else passes through. -/
def hydrateValue (v : SValue) : JValue :=
  match v with
  | .null => .null
  | .int n => if n = 0 then .bool false else if n = 1 then .bool true else .num n
  | .text s =>
    if strHeadIsBrace s then
      match jsonParse s with
      | some w => w
      | none => .str s
    else .str s

/-- Source `hydrateValue` on a possibly-`undefined` input: `undefined`
(`none`) passes through unchanged. -/
def hydrateValueU : Option SValue → Option JValue
  | none => none
  | some v => some (hydrateValue v)

/-- A stored row: ordered column/value pairs. -/
abbrev Row := List (String × SValue)

/-- A database table snapshot for the engine model. -/
abbrev DB := List Row

/-- Source `hydrateRow`: hydrate every column value, keeping keys. -/
def hydrateRow (row : Row) : List (String × JValue) :=
  row.map (fun kv => (kv.1, hydrateValue kv.2))

/-! ### `handleGet`: request parsing and statement construction -/

/-- The control query parameters skipped by the filter loop. -/
def reservedKeys : List String := ["sort_by", "order", "limit", "page"]

/-- `searchParams.get(k)`: the first value for `k`, if any. -/
def qsGet (qs : List (String × String)) (k : String) : Option String :=
  (qs.find? (fun kv => kv.1 == k)).map Prod.snd

/-- Whitespace skipped by JS `parseInt`. -/
def isJsSpace (c : Char) : Bool :=
  c.toNat == 32 || c.toNat == 9 || c.toNat == 10 || c.toNat == 13

/-- The leading digit run of a character list, as a number; `none` if there
is no leading digit. -/
def leadNat (cs : List Char) : Option Nat :=
  let ds := cs.takeWhile isDig
  if ds.isEmpty then none else some (digitsToNat ds)

/-- JS `parseInt` (decimal): skip whitespace, optional sign, then the
leading digit run; `none` models `NaN`.  (The automatic hex prefix of
`parseInt` is not modelled; no claim exercises it.) -/
def jsParseInt (s : String) : Option Int :=
  match s.data.dropWhile isJsSpace with
  | '-' :: rest => (leadNat rest).map (fun n => -(n : Int))
  | '+' :: rest => (leadNat rest).map (fun n => (n : Int))
  | cs => (leadNat cs).map (fun n => (n : Int))

/-- The per-table identifying column: `tableName === "quizzes" ? "slug" : "id"`. -/
def idColumnOf (tn : String) : String := if tn = "quizzes" then "slug" else "id"

/-- Truthiness of the optional path id (`if (id)`). -/
def idTruthy : Option String → Bool
  | none => false
  | some s => !s.isEmpty

/-- The effective string fed to `parseInt` for `limit`:
`searchParams.get("limit") || "0"`. -/
def effLimitStr (qs : List (String × String)) : String :=
  match qsGet qs "limit" with
  | none => "0"
  | some s => if s.isEmpty then "0" else s

/-- The effective string fed to `parseInt` for `page`:
`searchParams.get("page") || "1"`. -/
def effPageStr (qs : List (String × String)) : String :=
  match qsGet qs "page" with
  | none => "1"
  | some s => if s.isEmpty then "1" else s

/-- The parsed `limit` (`none` = `NaN`). -/
def getLimit (qs : List (String × String)) : Option Int := jsParseInt (effLimitStr qs)

/-- The parsed, clamped `page`: `Math.max(1, parseInt(...))`; `Math.max`
propagates `NaN`. -/
def getPage (qs : List (String × String)) : Option Int :=
  (jsParseInt (effPageStr qs)).map (fun n => max 1 n)

/-- `offset = (page - 1) * limit`, with `NaN` propagation. -/
def getOffset (qs : List (String × String)) : Option Int :=
  match getPage qs, getLimit qs with
  | some p, some l => some ((p - 1) * l)
  | _, _ => none

/-- The `limit > 0` test that switches pagination on (`NaN > 0` is false). -/
def limitPos (qs : List (String × String)) : Bool :=
  match getLimit qs with
  | some l => decide (0 < l)
  | none => false

/-- The effective sort column: `searchParams.get("sort_by") || idColumn`. -/
def effSortBy (tn : String) (qs : List (String × String)) : String :=
  match qsGet qs "sort_by" with
  | none => idColumnOf tn
  | some s => if s.isEmpty then idColumnOf tn else s

/-- `searchParams.get("order")?.toUpperCase() === "DESC"`. -/
def orderDesc (qs : List (String × String)) : Bool :=
  match qsGet qs "order" with
  | some s => s.toUpper == "DESC"
  | none => false

/-- The WHERE conditions as (column, bound value) pairs, in push order: the
id condition first (when the id is truthy), then one equality condition per
non-reserved query parameter, its key sanitized. -/
def getConds (tn : String) (id : Option String) (qs : List (String × String)) :
    List (String × String) :=
  (match id with
   | some s => if s.isEmpty then [] else [(idColumnOf tn, s)]
   | none => []) ++
  (qs.filter (fun kv => !reservedKeys.contains kv.1)).map
    (fun kv => (sanitizeIdentifier kv.1, kv.2))

/-- `conditions.join(" AND ")`. -/
def joinAnd : List String → String
  | [] => ""
  | [s] => s
  | s :: t :: tl => s ++ " AND " ++ joinAnd (t :: tl)

/-- The WHERE clause text (empty when there are no conditions). -/
def whereClause (conds : List (String × String)) : String :=
  if conds.isEmpty then ""
  else " WHERE " ++ joinAnd (conds.map (fun c => c.1 ++ " = ?"))

/-- The main SELECT statement text built by `handleGet`. -/
def getQueryText (tn : String) (id : Option String) (qs : List (String × String)) : String :=
  "SELECT * FROM " ++ sanitizeKeyword tn ++ whereClause (getConds tn id qs) ++
    " ORDER BY " ++ sanitizeIdentifier (effSortBy tn qs) ++ " " ++
    (if orderDesc qs then "DESC" else "ASC") ++
    (if limitPos qs then " LIMIT ? OFFSET ?" else "")

/-- The parameters bound to the main SELECT: the condition values in order,
then `limit` and `offset` when pagination is on. -/
def getParams (tn : String) (id : Option String) (qs : List (String × String)) :
    List BindVal :=
  (getConds tn id qs).map (fun c => .sv (.text c.2)) ++
    (if limitPos qs then
      [(match getLimit qs with | some l => .sv (.int l) | none => .nan),
       (match getOffset qs with | some o => .sv (.int o) | none => .nan)]
    else [])

/-- `Math.ceil(t / l)` on integers (for `l > 0`): `-floor(-t / l)`. -/
def jsMathCeilDiv (t l : Int) : Int := -((-t).ediv l)

/-- A query string with the reserved control parameters removed: the
"same request without sort/pagination parameters". -/
def stripReserved (qs : List (String × String)) : List (String × String) :=
  qs.filter (fun kv => !reservedKeys.contains kv.1)

/-- The `total_pages` metadata value:
`limit > 0 ? Math.ceil(total / limit) : 1`. -/
def totalPagesOf (qs : List (String × String)) (total : Int) : Int :=
  if limitPos qs then
    jsMathCeilDiv total (match getLimit qs with | some l => l | none => 0)
  else 1

/-- The echoed `limit` metadata value: `limit || total`. -/
def limitEchoOf (qs : List (String × String)) (total : Int) : Int :=
  match getLimit qs with
  | some l => if l = 0 then total else l
  | none => total

/-- The COUNT statement text built by `handleGet`. -/
def countText (tn : String) (id : Option String) (qs : List (String × String)) : String :=
  "SELECT COUNT(*) as total FROM " ++ sanitizeKeyword tn ++
    whereClause (getConds tn id qs)

/-- JS `params.slice(0, -2)`: all elements but the last two. -/
def jsSliceToMinus2 (l : List BindVal) : List BindVal := l.take (l.length - 2)

/-- The parameters bound to the COUNT statement:
`limit > 0 ? params.slice(0, -2) : params`. -/
def countParams (tn : String) (id : Option String) (qs : List (String × String)) :
    List BindVal :=
  if limitPos qs then jsSliceToMinus2 (getParams tn id qs) else getParams tn id qs

/-! ### The storage-engine model and the full GET pipeline -/

/-- The value stored at a column, NULL when the column is absent. -/
def rowGetD (row : Row) (col : String) : SValue :=
  match row.find? (fun kv => kv.1 == col) with
  | some kv => kv.2
  | none => .null

/-- SQLite equality of a stored value against a bound text parameter,
without column affinity: only TEXT = TEXT compares equal (NULL never). -/
def svMatch (a : SValue) (param : String) : Bool :=
  match a with
  | .text s => s == param
  | _ => false

/-- One `col = ?` condition, evaluated on a row. -/
def condMatches (row : Row) (c : String × String) : Bool := svMatch (rowGetD row c.1) c.2

/-- The rows of the table satisfying every condition. -/
def matchingRows (db : DB) (conds : List (String × String)) : DB :=
  db.filter (fun r => conds.all (fun c => condMatches r c))

/-- Lexicographic order on character lists by code point (byte order on
ASCII, as SQLite's default text collation). -/
def charListLe : List Char → List Char → Bool
  | [], _ => true
  | a :: as_, b :: bs =>
    if a.toNat < b.toNat then true
    else if b.toNat < a.toNat then false
    else charListLe as_ bs
  | _ :: _, [] => false

/-- SQLite's cross-type value order: NULL < INTEGER < TEXT, integers by
value, texts lexicographically. -/
def svLe : SValue → SValue → Bool
  | .null, _ => true
  | .int _, .null => false
  | .int a, .int b => decide (a ≤ b)
  | .int _, .text _ => true
  | .text _, .null => false
  | .text _, .int _ => false
  | .text a, .text b => charListLe a.data b.data

/-- `ORDER BY col dir` as a row comparison. -/
def rowLe (col : String) (desc : Bool) (r1 r2 : Row) : Bool :=
  if desc then svLe (rowGetD r2 col) (rowGetD r1 col)
  else svLe (rowGetD r1 col) (rowGetD r2 col)

/-- Insertion into a sorted row list. -/
def insertRow (le : Row → Row → Bool) (r : Row) : List Row → List Row
  | [] => [r]
  | x :: xs => if le r x then r :: x :: xs else x :: insertRow le r xs

/-- Insertion sort of the matching rows (a stable model of `ORDER BY`). -/
def sortRows (le : Row → Row → Bool) : List Row → List Row
  | [] => []
  | r :: rs => insertRow le r (sortRows le rs)

/-- The outcome of `handleGet` as surfaced to the client. -/
inductive GetResponse : Type where
  | notFound : GetResponse
  | single (row : List (String × JValue)) : GetResponse
  | listing (rows : List (List (String × JValue))) (totalItems : Int)
      (totalPages : Int) (currentPage : Option Int) (limitEcho : Int) : GetResponse
  | dbError (msg : String) : GetResponse

/-- The whole `handleGet` pipeline over the engine model: build conditions,
filter, sort, apply `LIMIT ?/OFFSET ?` when `limit > 0`, then either the
single-row (id) response or the hydrated listing with pagination metadata.
A `NaN` pagination bind (non-numeric `page` with `limit > 0`) is modelled as
the engine rejecting the statement. -/
def execGet (db : DB) (tn : String) (id : Option String)
    (qs : List (String × String)) : GetResponse :=
  let conds := getConds tn id qs
  let sorted := sortRows (rowLe (sanitizeIdentifier (effSortBy tn qs)) (orderDesc qs))
    (matchingRows db conds)
  let rowsOpt :=
    if limitPos qs then
      match getLimit qs, getOffset qs with
      | some l, some o => some ((sorted.drop o.toNat).take l.toNat)
      | _, _ => none
    else some sorted
  match rowsOpt with
  | none => .dbError "invalid bind value"
  | some rows =>
    if idTruthy id then
      match rows with
      | [] => .notFound
      | r :: _ => .single (hydrateRow r)
    else
      let total := (matchingRows db conds).length
      .listing (rows.map hydrateRow) (total : Int)
        (totalPagesOf qs (total : Int)) (getPage qs) (limitEchoOf qs (total : Int))

/-! ### `handleUpdate` and `handleDelete` -/

/-- The UPDATE statement text (`finalQuery` in the source). -/
def updateText (tn : String) (p : Payload) : String :=
  "UPDATE " ++ sanitizeKeyword tn ++ " SET " ++
    joinCommaSp ((updateColumns p).map (fun col => col ++ " = ?")) ++
    " WHERE " ++ idColumnOf tn ++ " = ?"

/-- The parameters bound to the UPDATE: the SET values, then the id last. -/
def updateBinds (p : Payload) (id : String) : List BindVal :=
  updateParams p ++ [.sv (.text id)]

/-- The DELETE statement text. -/
def deleteText (tn : String) : String :=
  "DELETE FROM " ++ sanitizeKeyword tn ++ " WHERE " ++ idColumnOf tn ++ " = ?"

/-- The engine's affected-row count for the DELETE: how many rows match the
id condition. -/
def deleteChanges (db : DB) (tn : String) (idv : String) : Nat :=
  (matchingRows db [(idColumnOf tn, idv)]).length

/-- The outcome of `handleDelete`. -/
inductive DeleteResponse : Type where
  | deleted : DeleteResponse
  | notFound : DeleteResponse
  | dbError (msg : String) : DeleteResponse
deriving DecidableEq

/-- `handleDelete`'s response, as a function of the engine outcome: an engine
error becomes a 500 with the engine message; `changes === 0` becomes the 404
branch; otherwise the success acknowledgment. -/
def handleDeleteResp : Except String Nat → DeleteResponse
  | .error m => .dbError m
  | .ok ch => if ch = 0 then .notFound else .deleted

/-! ### Predicates used by the claim statements -/

/-- An empty remainder, or one starting with a non-digit: the boundary
after a serialized number. -/
def numBoundary : List Char → Bool
  | [] => true
  | c :: _ => !isDig c

/-- Characters that can occur in the main SELECT text: sanitized-identifier
characters plus the fixed SQL skeleton's punctuation. -/
def allowedSelectChar (c : Char) : Bool :=
  isIdentChar c || c == ' ' || c == '*' || c == '`' || c == '=' || c == '?'

/-- Characters that can occur in the COUNT text (adds the parentheses of
`COUNT(*)`). -/
def allowedCountChar (c : Char) : Bool :=
  allowedSelectChar c || c == '(' || c == ')'

/-- No string occurs twice in the list (JavaScript object keys are unique). -/
def distinctKeys : List String → Bool
  | [] => true
  | k :: tl => !tl.contains k && distinctKeys tl

mutual
/-- A value expressible as a JavaScript object graph: object keys are
distinct at every level. -/
def wfJ : JValue → Bool
  | .arr xs => wfElems xs
  | .obj fs => distinctKeys (fs.map Prod.fst) && wfMems fs
  | _ => true
/-- `wfJ` on every element. -/
def wfElems : List JValue → Bool
  | [] => true
  | v :: tl => wfJ v && wfElems tl
/-- `wfJ` on every member value. -/
def wfMems : List (String × JValue) → Bool
  | [] => true
  | (_, v) :: tl => wfJ v && wfMems tl
end

/-- The shapes quantified over by the round-trip claim: object, array,
boolean or null. -/
def roundTrippable : JValue → Bool
  | .null => true
  | .bool _ => true
  | .arr _ => true
  | .obj _ => true
  | _ => false

/-- The write-direction coercion on a defined value (`toStorage` in the
specification): exactly the coercion `handlePost` applies. -/
def toStorage (v : JValue) : SValue := postCoerceVal (some v)

/-! ### Basic string and digit lemmas -/

theorem string_data_append (s t : String) : (s ++ t).data = s.data ++ t.data := rfl

theorem string_mk_data (s : String) : (⟨s.data⟩ : String) = s := rfl

theorem sanitizeIdentifier_data (s : String) :
    (sanitizeIdentifier s).data = s.data.filter isIdentChar := rfl

/-- Every character the sanitizer emits is in `[A-Za-z0-9_]`. -/
theorem sanitizeIdentifier_allIdent (s : String) :
    ∀ c ∈ (sanitizeIdentifier s).data, isIdentChar c = true := by
  intro c hc
  rw [sanitizeIdentifier_data] at hc
  exact (List.mem_filter.mp hc).2

theorem digitChar_spec (n : Nat) (h : n < 10) :
    isDig (digitChar n) = true ∧ (digitChar n).toNat = 48 + n := by
  interval_cases n <;> exact ⟨by decide, by decide⟩

theorem natDigits_eq (n : Nat) :
    natDigits n =
      if n < 10 then [digitChar n] else natDigits (n / 10) ++ [digitChar (n % 10)] := by
  rw [natDigits]

theorem natDigits_all_dig (n : Nat) : ∀ c ∈ natDigits n, isDig c = true := by
  induction n using Nat.strong_induction_on with
  | _ n IH =>
    rw [natDigits_eq]
    by_cases h : n < 10
    · simp only [if_pos h, List.mem_singleton]
      rintro c rfl
      exact (digitChar_spec n h).1
    · simp only [if_neg h, List.mem_append, List.mem_singleton]
      rintro c (hc | rfl)
      · have hdl : n / 10 < n := Nat.div_lt_self (by omega) (by omega)
        exact IH (n / 10) hdl c hc
      · exact (digitChar_spec (n % 10) (Nat.mod_lt _ (by omega))).1

theorem natDigits_ne_nil (n : Nat) : natDigits n ≠ [] := by
  rw [natDigits_eq]
  by_cases h : n < 10 <;> simp [h]

theorem digitsToNat_append_one (ds : List Char) (c : Char) :
    digitsToNat (ds ++ [c]) = digitsToNat ds * 10 + (c.toNat - 48) := by
  simp [digitsToNat, List.foldl_append]

theorem digitsToNat_natDigits (n : Nat) : digitsToNat (natDigits n) = n := by
  induction n using Nat.strong_induction_on with
  | _ n IH =>
    rw [natDigits_eq]
    by_cases h : n < 10
    · simp only [if_pos h]
      have := (digitChar_spec n h).2
      simp [digitsToNat, this]
    · simp only [if_neg h, digitsToNat_append_one]
      have hdl : n / 10 < n := Nat.div_lt_self (by omega) (by omega)
      rw [IH (n / 10) hdl]
      have := (digitChar_spec (n % 10) (Nat.mod_lt _ (by omega))).2
      omega

theorem natDigits_cons (n : Nat) :
    ∃ c t, natDigits n = c :: t ∧ isDig c = true := by
  match h : natDigits n with
  | [] => exact absurd h (natDigits_ne_nil n)
  | c :: t =>
    refine ⟨c, t, rfl, natDigits_all_dig n c ?_⟩
    rw [h]
    exact List.mem_cons_self c t

/-- A digit character differs from every non-digit character; this rules
out each character that starts another JSON token or closes a composite. -/
theorem isDig_ne (c d : Char) (h : isDig c = true) (hd : isDig d = false) :
    ¬ c = d := by
  rintro rfl
  rw [h] at hd
  cases hd

theorem takeWhile_all_append (p : Char → Bool) (l r : List Char)
    (hl : ∀ c ∈ l, p c = true)
    (hr : ∀ c t, r = c :: t → p c = false) :
    (l ++ r).takeWhile p = l ∧ (l ++ r).dropWhile p = r := by
  induction l with
  | nil =>
    cases r with
    | nil => exact ⟨rfl, rfl⟩
    | cons c t => simp [List.takeWhile_cons, List.dropWhile_cons, hr c t rfl]
  | cons c t ih =>
    have hc : p c = true := hl c (List.mem_cons_self c t)
    have := ih (fun x hx => hl x (List.mem_cons_of_mem c hx))
    simp [List.takeWhile_cons, List.dropWhile_cons, hc, this]

theorem parseDigitRun_natDigits (n : Nat) (rest : List Char)
    (hb : numBoundary rest = true) :
    parseDigitRun (natDigits n ++ rest) = some (n, rest) := by
  have hb' : ∀ c t, rest = c :: t → isDig c = false := by
    rintro c t rfl
    simpa [numBoundary] using hb
  have h := takeWhile_all_append isDig (natDigits n) rest (natDigits_all_dig n) hb'
  simp [parseDigitRun, h.1, h.2, natDigits_ne_nil, digitsToNat_natDigits,
    List.isEmpty_iff]

/-- Parsing a serialized integer recovers it whenever the remainder does not
begin with a digit. -/
theorem parseIntLit_serInt (i : Int) (rest : List Char)
    (hb : numBoundary rest = true) :
    parseIntLit (serInt i ++ rest) = some (.num i, rest) := by
  by_cases hneg : i < 0
  · have hser : serInt i = '-' :: natDigits i.natAbs := by simp [serInt, hneg]
    have hval : (-(i.natAbs : Int)) = i := by omega
    rw [hser, List.cons_append]
    simp [parseIntLit, parseDigitRun_natDigits i.natAbs rest hb, hval]
    rw [abs_of_neg hneg, neg_neg]
  · obtain ⟨c, t, hct, hdig⟩ := natDigits_cons i.natAbs
    have hser : serInt i = c :: t := by simp [serInt, hneg, hct]
    have hmin : ¬ c = '-' := isDig_ne c '-' hdig (by decide)
    have hval : ((i.natAbs : Int)) = i := by omega
    rw [hser, List.cons_append]
    simp only [parseIntLit, if_neg hmin, ← List.cons_append, ← hct]
    simp [parseDigitRun_natDigits i.natAbs rest hb, hval]

/-! ### String escape round-trip -/

theorem hexVal_hexChar (m : Nat) (h : m < 16) : hexVal (hexChar m) = some m := by
  interval_cases m <;> decide

theorem char_ofNat_toNat (c : Char) : Char.ofNat c.toNat = c := Char.ofNat_toNat c

/-- Parsing one escaped character prepends exactly that character. -/
theorem parseStrAux_escChar (c : Char) (l : List Char) :
    parseStrAux (escChar c ++ l) = (parseStrAux l).map (fun p => (c :: p.1, p.2)) := by
  by_cases h1 : c = dqc
  · subst h1
    rw [(by decide : escChar dqc = [bsc, dqc])]
    simp only [List.cons_append, List.nil_append]
    rw [parseStrAux.eq_def]
    simp +decide
  by_cases h2 : c = bsc
  · subst h2
    rw [(by decide : escChar bsc = [bsc, bsc])]
    simp only [List.cons_append, List.nil_append]
    rw [parseStrAux.eq_def]
    simp +decide
  by_cases h3 : c.toNat = 8
  · have hc : c = Char.ofNat 8 := by rw [← h3, char_ofNat_toNat]
    subst hc
    rw [(by decide : escChar (Char.ofNat 8) = [bsc, 'b'])]
    simp only [List.cons_append, List.nil_append]
    rw [parseStrAux.eq_def]
    simp +decide
  by_cases h4 : c.toNat = 9
  · have hc : c = Char.ofNat 9 := by rw [← h4, char_ofNat_toNat]
    subst hc
    rw [(by decide : escChar (Char.ofNat 9) = [bsc, 't'])]
    simp only [List.cons_append, List.nil_append]
    rw [parseStrAux.eq_def]
    simp +decide
  by_cases h5 : c.toNat = 10
  · have hc : c = Char.ofNat 10 := by rw [← h5, char_ofNat_toNat]
    subst hc
    rw [(by decide : escChar (Char.ofNat 10) = [bsc, 'n'])]
    simp only [List.cons_append, List.nil_append]
    rw [parseStrAux.eq_def]
    simp +decide
  by_cases h6 : c.toNat = 12
  · have hc : c = Char.ofNat 12 := by rw [← h6, char_ofNat_toNat]
    subst hc
    rw [(by decide : escChar (Char.ofNat 12) = [bsc, 'f'])]
    simp only [List.cons_append, List.nil_append]
    rw [parseStrAux.eq_def]
    simp +decide
  by_cases h7 : c.toNat = 13
  · have hc : c = Char.ofNat 13 := by rw [← h7, char_ofNat_toNat]
    subst hc
    rw [(by decide : escChar (Char.ofNat 13) = [bsc, 'r'])]
    simp only [List.cons_append, List.nil_append]
    rw [parseStrAux.eq_def]
    simp +decide
  by_cases h8 : c.toNat < 32
  · have hdiv : c.toNat / 16 < 16 := by omega
    have hmod : c.toNat % 16 < 16 := Nat.mod_lt _ (by omega)
    have hesc : escChar c
        = [bsc, 'u', '0', '0', hexChar (c.toNat / 16), hexChar (c.toNat % 16)] := by
      simp [escChar, h1, h2, h3, h4, h5, h6, h7, h8]
    have hc : Char.ofNat (c.toNat / 16 * 16 + c.toNat % 16) = c := by
      have harith : c.toNat / 16 * 16 + c.toNat % 16 = c.toNat := by omega
      rw [harith, char_ofNat_toNat]
    rw [hesc]
    simp only [List.cons_append, List.nil_append]
    rw [parseStrAux.eq_def]
    simp +decide only [hexVal_hexChar _ hdiv, hexVal_hexChar _ hmod,
      (by decide : hexVal '0' = some 0)]
    simp [hc]
  · have hesc : escChar c = [c] := by
      simp [escChar, h1, h2, h3, h4, h5, h6, h7, h8]
    rw [hesc, List.cons_append, List.nil_append, parseStrAux.eq_def]
    simp only [if_neg h1, if_neg h2, if_neg h8]

/-- Parsing an escaped run stops exactly at the closing quote. -/
theorem parseStrAux_escList (l rest : List Char) :
    parseStrAux (escList l ++ dqc :: rest) = some (l, rest) := by
  induction l with
  | nil =>
    show parseStrAux (dqc :: rest) = some ([], rest)
    rw [parseStrAux.eq_def]
    simp +decide
  | cons c t ih => rw [escList, List.append_assoc, parseStrAux_escChar, ih]; rfl

/-! ### Shapes of serialized values -/

theorem serStr_eq (s : String) : serStr s = dqc :: (escList s.data ++ [dqc]) := rfl

theorem numBoundary_cons (c : Char) (tl : List Char) :
    numBoundary (c :: tl) = !isDig c := rfl

/-- A serialized value is nonempty and never starts with a closing bracket. -/
theorem serJ_cons (v : JValue) : ∃ c t, serJ v = c :: t ∧ ¬ c = ']' := by
  cases v with
  | null => exact ⟨'n', "ull".data, by simp [serJ], by decide⟩
  | bool b =>
    cases b
    · exact ⟨'f', "alse".data, by simp [serJ], by decide⟩
    · exact ⟨'t', "rue".data, by simp [serJ], by decide⟩
  | num n =>
    by_cases hneg : n < 0
    · exact ⟨'-', natDigits n.natAbs, by simp [serJ, serInt, hneg], by decide⟩
    · obtain ⟨c, t, hct, hdig⟩ := natDigits_cons n.natAbs
      exact ⟨c, t, by simp [serJ, serInt, hneg, hct],
        isDig_ne c ']' hdig (by decide)⟩
  | str s => exact ⟨dqc, escList s.data ++ [dqc], by simp [serJ, serStr_eq], by decide⟩
  | arr xs => exact ⟨'[', serElems xs ++ [']'], by simp [serJ], by decide⟩
  | obj fs => exact ⟨lbrace, serMems fs ++ [rbrace], by simp [serJ], by decide⟩

/-- A nonempty serialized element list starts like its first value. -/
theorem serElems_cons_shape (x : JValue) (tl : List JValue) :
    ∃ c t, serElems (x :: tl) = c :: t ∧ ¬ c = ']' := by
  obtain ⟨c, t, h, hne⟩ := serJ_cons x
  cases tl with
  | nil => exact ⟨c, t, by simp [serElems, h], hne⟩
  | cons y tl2 =>
    exact ⟨c, t ++ ',' :: serElems (y :: tl2), by simp [serElems, h], hne⟩

/-- A nonempty serialized member list starts with the key's opening quote. -/
theorem serMems_cons_shape (k : String) (v : JValue) (tl : List (String × JValue)) :
    ∃ t, serMems ((k, v) :: tl) = dqc :: t := by
  cases tl with
  | nil => exact ⟨escList k.data ++ [dqc] ++ ':' :: serJ v, by simp [serMems, serStr_eq]⟩
  | cons m tl2 =>
    exact ⟨escList k.data ++ [dqc] ++ ':' :: serJ v ++ ',' :: serMems (m :: tl2),
      by simp [serMems, serStr_eq]⟩

theorem one_le_sizeJ (v : JValue) : 1 ≤ sizeJ v := by
  cases v <;> simp [sizeJ]

/-! ### One-step reductions of the parser -/

theorem parseVal_step_null (fuel : Nat) (r : List Char) :
    parseVal (fuel + 1) ("null".data ++ r) = some (.null, r) := by
  rw [parseVal.eq_def]
  rfl

theorem parseVal_step_true (fuel : Nat) (r : List Char) :
    parseVal (fuel + 1) ("true".data ++ r) = some (.bool true, r) := by
  rw [parseVal.eq_def]
  rfl

theorem parseVal_step_false (fuel : Nat) (r : List Char) :
    parseVal (fuel + 1) ("false".data ++ r) = some (.bool false, r) := by
  rw [parseVal.eq_def]
  rfl

theorem parseVal_step_str (fuel : Nat) (r : List Char) :
    parseVal (fuel + 1) (dqc :: r)
      = (parseStrAux r).map (fun p => (.str ⟨p.1⟩, p.2)) := by
  rw [parseVal.eq_def]
  rfl

theorem parseVal_step_arr_nil (fuel : Nat) (r : List Char) :
    parseVal (fuel + 1) ('[' :: ']' :: r) = some (.arr [], r) := by
  rw [parseVal.eq_def]
  rfl

theorem parseVal_step_arr (fuel : Nat) (c0 : Char) (t0 : List Char) (h : ¬ c0 = ']') :
    parseVal (fuel + 1) ('[' :: c0 :: t0)
      = (parseElems fuel (c0 :: t0)).map (fun p => (.arr p.1, p.2)) := by
  rw [parseVal.eq_def]
  show (if c0 = ']' then some (JValue.arr [], t0)
    else (parseElems fuel (c0 :: t0)).map (fun p => (.arr p.1, p.2))) = _
  rw [if_neg h]

theorem parseVal_step_obj_nil (fuel : Nat) (r : List Char) :
    parseVal (fuel + 1) (lbrace :: rbrace :: r) = some (.obj [], r) := by
  rw [parseVal.eq_def]
  rfl

theorem parseVal_step_obj (fuel : Nat) (c0 : Char) (t0 : List Char) (h : ¬ c0 = rbrace) :
    parseVal (fuel + 1) (lbrace :: c0 :: t0)
      = (parseMems fuel (c0 :: t0)).map (fun p => (.obj p.1, p.2)) := by
  rw [parseVal.eq_def]
  show (if c0 = rbrace then some (JValue.obj [], t0)
    else (parseMems fuel (c0 :: t0)).map (fun p => (.obj p.1, p.2))) = _
  rw [if_neg h]

theorem parseVal_step_minus (fuel : Nat) (r : List Char) :
    parseVal (fuel + 1) ('-' :: r) = parseIntLit ('-' :: r) := by
  rw [parseVal.eq_def]
  rfl

theorem parseVal_step_digit (fuel : Nat) (c : Char) (r : List Char)
    (h : isDig c = true) :
    parseVal (fuel + 1) (c :: r) = parseIntLit (c :: r) := by
  rw [parseVal.eq_def]
  simp only [if_neg (isDig_ne c 'n' h (by decide)), if_neg (isDig_ne c 't' h (by decide)),
    if_neg (isDig_ne c 'f' h (by decide)), if_neg (isDig_ne c dqc h (by decide)),
    if_neg (isDig_ne c '[' h (by decide)), if_neg (isDig_ne c lbrace h (by decide)),
    h, Bool.or_true]
  simp

theorem parseElems_step_close (fuel : Nat) (cs r2 : List Char) (v : JValue)
    (h : parseVal fuel cs = some (v, ']' :: r2)) :
    parseElems (fuel + 1) cs = some ([v], r2) := by
  rw [parseElems.eq_def]
  show ((match parseVal fuel cs with
    | none => none
    | some (w, r) =>
      match r with
      | [] => none
      | d :: rr =>
        if d = ',' then (parseElems fuel rr).map (fun p => (w :: p.1, p.2))
        else if d = ']' then some ([w], rr)
        else none : Option (List JValue × List Char))) = _
  rw [h]
  rfl

theorem parseElems_step_comma (fuel : Nat) (cs r2 : List Char) (v : JValue)
    (h : parseVal fuel cs = some (v, ',' :: r2)) :
    parseElems (fuel + 1) cs = (parseElems fuel r2).map (fun p => (v :: p.1, p.2)) := by
  rw [parseElems.eq_def]
  show ((match parseVal fuel cs with
    | none => none
    | some (w, r) =>
      match r with
      | [] => none
      | d :: rr =>
        if d = ',' then (parseElems fuel rr).map (fun p => (w :: p.1, p.2))
        else if d = ']' then some ([w], rr)
        else none : Option (List JValue × List Char))) = _
  rw [h]
  rfl

theorem parseMems_step_close (fuel : Nat) (rest r2 r4 : List Char) (kd : List Char)
    (v : JValue) (hk : parseStrAux rest = some (kd, ':' :: r2))
    (hv : parseVal fuel r2 = some (v, rbrace :: r4)) :
    parseMems (fuel + 1) (dqc :: rest) = some ([(⟨kd⟩, v)], r4) := by
  rw [parseMems.eq_def]
  show ((match parseStrAux rest with
    | none => none
    | some (kk, r1) =>
      match r1 with
      | ':' :: rr =>
        match parseVal fuel rr with
        | none => none
        | some (w, r3) =>
          match r3 with
          | [] => none
          | d :: rrr =>
            if d = ',' then
              (parseMems fuel rrr).map (fun p => ((String.mk kk, w) :: p.1, p.2))
            else if d = rbrace then some ([(String.mk kk, w)], rrr)
            else none
      | _ => none : Option (List (String × JValue) × List Char))) = _
  rw [hk]
  show ((match parseVal fuel r2 with
    | none => none
    | some (w, r3) =>
      match r3 with
      | [] => none
      | d :: rrr =>
        if d = ',' then
          (parseMems fuel rrr).map (fun p => ((String.mk kd, w) :: p.1, p.2))
        else if d = rbrace then some ([(String.mk kd, w)], rrr)
        else none : Option (List (String × JValue) × List Char))) = _
  rw [hv]
  rfl

theorem parseMems_step_comma (fuel : Nat) (rest r2 r4 : List Char) (kd : List Char)
    (v : JValue) (hk : parseStrAux rest = some (kd, ':' :: r2))
    (hv : parseVal fuel r2 = some (v, ',' :: r4)) :
    parseMems (fuel + 1) (dqc :: rest)
      = (parseMems fuel r4).map (fun p => ((⟨kd⟩, v) :: p.1, p.2)) := by
  rw [parseMems.eq_def]
  show ((match parseStrAux rest with
    | none => none
    | some (kk, r1) =>
      match r1 with
      | ':' :: rr =>
        match parseVal fuel rr with
        | none => none
        | some (w, r3) =>
          match r3 with
          | [] => none
          | d :: rrr =>
            if d = ',' then
              (parseMems fuel rrr).map (fun p => ((String.mk kk, w) :: p.1, p.2))
            else if d = rbrace then some ([(String.mk kk, w)], rrr)
            else none
      | _ => none : Option (List (String × JValue) × List Char))) = _
  rw [hk]
  show ((match parseVal fuel r2 with
    | none => none
    | some (w, r3) =>
      match r3 with
      | [] => none
      | d :: rrr =>
        if d = ',' then
          (parseMems fuel rrr).map (fun p => ((String.mk kd, w) :: p.1, p.2))
        else if d = rbrace then some ([(String.mk kd, w)], rrr)
        else none : Option (List (String × JValue) × List Char))) = _
  rw [hv]
  rfl

/-! ### The JSON codec round-trip (fuel induction) -/

/-- The fuel-indexed round-trip invariant: with enough fuel, parsing a
serialization followed by a suitable remainder recovers the value and the
remainder, for values, element lists and member lists alike. -/
theorem parse_ser (fuel : Nat) :
    (∀ v rest, sizeJ v ≤ fuel → numBoundary rest = true →
      parseVal fuel (serJ v ++ rest) = some (v, rest)) ∧
    (∀ x tl rest, sizeElems (x :: tl) ≤ fuel →
      parseElems fuel (serElems (x :: tl) ++ ']' :: rest) = some (x :: tl, rest)) ∧
    (∀ k v tl rest, sizeMems ((k, v) :: tl) ≤ fuel →
      parseMems fuel (serMems ((k, v) :: tl) ++ rbrace :: rest) = some ((k, v) :: tl, rest)) := by
  induction fuel with
  | zero =>
    refine ⟨fun v rest hs _ => absurd hs (by have := one_le_sizeJ v; omega),
      fun x tl rest hs => absurd hs (by simp [sizeElems]),
      fun k v tl rest hs => absurd hs (by simp [sizeMems])⟩
  | succ fuel ih =>
    refine ⟨?_, ?_, ?_⟩
    · -- values
      intro v rest hs hb
      cases v with
      | null =>
        simp only [serJ]
        exact parseVal_step_null fuel rest
      | bool b =>
        cases b with
        | true =>
          simp only [serJ]
          exact parseVal_step_true fuel rest
        | false =>
          simp only [serJ]
          exact parseVal_step_false fuel rest
      | num n =>
        by_cases hneg : n < 0
        · have hser : serInt n = '-' :: natDigits n.natAbs := by simp [serInt, hneg]
          simp only [serJ, hser, List.cons_append]
          rw [parseVal_step_minus, ← List.cons_append, ← hser]
          exact parseIntLit_serInt n rest hb
        · obtain ⟨c, t, hct, hdig⟩ := natDigits_cons n.natAbs
          have hser : serInt n = c :: t := by simp [serInt, hneg, hct]
          simp only [serJ, hser, List.cons_append]
          rw [parseVal_step_digit fuel c _ hdig, ← List.cons_append, ← hser]
          exact parseIntLit_serInt n rest hb
      | str s =>
        simp only [serJ, serStr_eq, List.cons_append, List.append_assoc,
          List.singleton_append]
        rw [parseVal_step_str, parseStrAux_escList]
        rfl
      | arr xs =>
        cases xs with
        | nil =>
          simp only [serJ, serElems, List.nil_append, List.cons_append,
            List.singleton_append]
          exact parseVal_step_arr_nil fuel rest
        | cons x tl =>
          obtain ⟨c0, t0, hse, hne⟩ := serElems_cons_shape x tl
          have hs' : sizeElems (x :: tl) ≤ fuel := by
            simp only [sizeJ] at hs
            omega
          have helems := ih.2.1 x tl rest hs'
          simp only [serJ, List.cons_append, List.append_assoc, List.singleton_append,
            List.nil_append]
          rw [hse, List.cons_append, parseVal_step_arr fuel c0 _ hne,
            ← List.cons_append, ← hse, helems]
          rfl
      | obj fs =>
        cases fs with
        | nil =>
          simp only [serJ, serMems, List.nil_append, List.cons_append,
            List.singleton_append]
          exact parseVal_step_obj_nil fuel rest
        | cons m tl =>
          obtain ⟨k, v⟩ := m
          obtain ⟨t0, hsm⟩ := serMems_cons_shape k v tl
          have hs' : sizeMems ((k, v) :: tl) ≤ fuel := by
            simp only [sizeJ] at hs
            omega
          have hmems := ih.2.2 k v tl rest hs'
          have hq : ¬ dqc = rbrace := by decide
          simp only [serJ, List.cons_append, List.append_assoc, List.singleton_append,
            List.nil_append]
          rw [hsm, List.cons_append, parseVal_step_obj fuel dqc _ hq,
            ← List.cons_append, ← hsm, hmems]
          rfl
    · -- element lists
      intro x tl rest hsz
      cases tl with
      | nil =>
        have hx : sizeJ x ≤ fuel := by simp [sizeElems] at hsz; omega
        have hv := ih.1 x (']' :: rest) hx (by rw [numBoundary_cons]; decide)
        simp only [serElems]
        exact parseElems_step_close fuel _ rest x hv
      | cons y tl2 =>
        have hx : sizeJ x ≤ fuel := by simp [sizeElems] at hsz; omega
        have htl : sizeElems (y :: tl2) ≤ fuel := by
          simp [sizeElems] at hsz ⊢
          omega
        have hv := ih.1 x (',' :: (serElems (y :: tl2) ++ ']' :: rest)) hx
          (by rw [numBoundary_cons]; decide)
        have hrest := ih.2.1 y tl2 rest htl
        simp only [serElems, List.cons_append, List.append_assoc]
        simp only [List.cons_append] at hv
        rw [parseElems_step_comma fuel _ _ x hv, hrest]
        rfl
    · -- member lists
      intro k v tl rest hsz
      cases tl with
      | nil =>
        have hvsz : sizeJ v ≤ fuel := by simp [sizeMems] at hsz; omega
        have hval := ih.1 v (rbrace :: rest) hvsz (by rw [numBoundary_cons]; decide)
        have hstr := parseStrAux_escList k.data
          (':' :: (serJ v ++ rbrace :: rest))
        simp only [serMems, serStr_eq, List.cons_append, List.append_assoc,
          List.singleton_append, List.nil_append]
        rw [parseMems_step_close fuel _ _ rest k.data v hstr hval]
      | cons m tl2 =>
        obtain ⟨k2, v2⟩ := m
        have hvsz : sizeJ v ≤ fuel := by simp [sizeMems] at hsz; omega
        have htl : sizeMems ((k2, v2) :: tl2) ≤ fuel := by
          simp [sizeMems] at hsz ⊢
          omega
        have hval := ih.1 v (',' :: (serMems ((k2, v2) :: tl2) ++ rbrace :: rest)) hvsz
          (by rw [numBoundary_cons]; decide)
        have hrest := ih.2.2 k2 v2 tl2 rest htl
        simp only [List.cons_append] at hval
        have hstr := parseStrAux_escList k.data
          (':' :: (serJ v ++ ',' :: (serMems ((k2, v2) :: tl2) ++ rbrace :: rest)))
        simp only [serMems, serStr_eq, List.cons_append, List.append_assoc,
          List.singleton_append, List.nil_append]
        rw [parseMems_step_comma fuel _ _ _ k.data v hstr hval, hrest]
        rfl

mutual
/-- The parser fuel a serialized value needs is within its own length. -/
theorem sizeJ_le_len : ∀ v : JValue, sizeJ v ≤ (serJ v).length
  | .null => by simp [sizeJ, serJ]
  | .bool b => by cases b <;> simp [sizeJ, serJ]
  | .num n => by
    have hne := natDigits_ne_nil n.natAbs
    have hpos : 0 < (natDigits n.natAbs).length := List.length_pos.mpr hne
    by_cases hneg : n < 0 <;> (simp [sizeJ, serJ, serInt, hneg]; try omega)
  | .str s => by simp [sizeJ, serJ, serStr_eq]
  | .arr xs => by
    have h := sizeElems_le_len xs
    simp only [sizeJ, serJ, List.length_cons, List.length_append, List.length_singleton]
    omega
  | .obj fs => by
    have h := sizeMems_le_len fs
    simp only [sizeJ, serJ, List.length_cons, List.length_append, List.length_singleton]
    omega
/-- The element-list analogue of `sizeJ_le_len`. -/
theorem sizeElems_le_len : ∀ xs : List JValue, sizeElems xs ≤ (serElems xs).length + 1
  | [] => by simp [sizeElems, serElems]
  | [v] => by
    have h := sizeJ_le_len v
    simp only [sizeElems, serElems]
    omega
  | v :: w :: tl => by
    have h1 := sizeJ_le_len v
    have h2 := sizeElems_le_len (w :: tl)
    simp only [sizeElems, serElems, List.length_append, List.length_cons]
    simp only [sizeElems] at h2
    omega
/-- The member-list analogue of `sizeJ_le_len`. -/
theorem sizeMems_le_len : ∀ fs : List (String × JValue), sizeMems fs ≤ (serMems fs).length + 1
  | [] => by simp [sizeMems, serMems]
  | [(k, v)] => by
    have h := sizeJ_le_len v
    simp only [sizeMems, serMems, List.length_append, List.length_cons]
    omega
  | (k, v) :: m :: tl => by
    have h1 := sizeJ_le_len v
    have h2 := sizeMems_le_len (m :: tl)
    simp only [sizeMems, serMems, List.length_append, List.length_cons]
    simp only [sizeMems] at h2
    omega
end

/-- Parsing a stringified value recovers it: the JSON codec round-trip. -/
theorem jsonParse_stringify (v : JValue) : jsonParse (jsonStringify v) = some v := by
  have hfuel : sizeJ v ≤ (serJ v).length + 1 := le_trans (sizeJ_le_len v) (by omega)
  have h := (parse_ser ((serJ v).length + 1)).1 v [] hfuel rfl
  rw [List.append_nil] at h
  show (match parseVal ((serJ v).length + 1) (serJ v) with
    | some (w, []) => some w
    | _ => none) = some v
  rw [h]

/-! ### Hydration lemmas -/

theorem strHeadIsBrace_of_data (s : String) (c : Char) (t : List Char)
    (h : s.data = c :: t) : strHeadIsBrace s = (c = lbrace || c = '[' : Bool) := by
  simp only [strHeadIsBrace, h]

theorem strHeadIsBrace_of_nil (s : String) (h : s.data = []) :
    strHeadIsBrace s = false := by
  simp only [strHeadIsBrace, h]

theorem hydrateValue_text (s : String) :
    hydrateValue (.text s)
      = if strHeadIsBrace s then
          (match jsonParse s with | some w => w | none => .str s)
        else .str s := rfl

/-! ### Claim theorems -/

/-- C5: round-trip of the value coercions.  For every JSON-serializable
value that is an object, an array, a boolean, or null (`roundTrippable`,
with object keys distinct at every level as in any JavaScript object,
`wfJ`), reading back the stored form recovers the value exactly:
`fromStorage (toStorage v) = v`, where `toStorage` is the write-direction
coercion of `handlePost` and `fromStorage` is `hydrateValue`. -/
theorem C5_write_read_roundtrip (v : JValue) (hwf : wfJ v = true)
    (hshape : roundTrippable v = true) : hydrateValue (toStorage v) = v := by
  cases v with
  | null => rfl
  | bool b => cases b <;> rfl
  | num n => exact absurd hshape (by simp [roundTrippable])
  | str sv => exact absurd hshape (by simp [roundTrippable])
  | arr xs =>
    show hydrateValue (.text (jsonStringify (.arr xs))) = .arr xs
    have hdata : (jsonStringify (.arr xs)).data = '[' :: (serElems xs ++ [']']) := by
      simp [jsonStringify, serJ]
    have hb : strHeadIsBrace (jsonStringify (.arr xs)) = true := by
      rw [strHeadIsBrace_of_data _ _ _ hdata]
      simp
    rw [hydrateValue_text, hb, if_pos rfl, jsonParse_stringify]
  | obj fs =>
    show hydrateValue (.text (jsonStringify (.obj fs))) = .obj fs
    have hdata : (jsonStringify (.obj fs)).data = lbrace :: (serMems fs ++ [rbrace]) := by
      simp [jsonStringify, serJ]
    have hb : strHeadIsBrace (jsonStringify (.obj fs)) = true := by
      rw [strHeadIsBrace_of_data _ _ _ hdata]
      simp
    rw [hydrateValue_text, hb, if_pos rfl, jsonParse_stringify]

/-- C5 witness: the round-trip at the concrete payload value
`\x7b"a": [1, true], "b": null\x7d`. -/
theorem C5_write_read_roundtrip_witness :
    wfJ (JValue.obj [("a", JValue.arr [JValue.num 1, JValue.bool true]),
        ("b", JValue.null)]) = true ∧
    roundTrippable (JValue.obj [("a", JValue.arr [JValue.num 1, JValue.bool true]),
        ("b", JValue.null)]) = true ∧
    hydrateValue (toStorage (JValue.obj [("a", JValue.arr [JValue.num 1, JValue.bool true]),
        ("b", JValue.null)]))
      = JValue.obj [("a", JValue.arr [JValue.num 1, JValue.bool true]), ("b", JValue.null)] := by
  have hwf : wfJ (JValue.obj [("a", JValue.arr [JValue.num 1, JValue.bool true]),
      ("b", JValue.null)]) = true := by
    simp [wfJ, wfElems, wfMems, distinctKeys]
  exact ⟨hwf, rfl, C5_write_read_roundtrip _ hwf rfl⟩

/-- C8: read-direction hydration.  `undefined` and NULL pass through; the
integers 0 and 1 become `false`/`true` unconditionally; any other integer
passes through; a string whose first character is a brace or bracket is
JSON-parsed with fallback to the original string on failure; every other
string passes through; and `hydrateRow` applies the transformation to every
column value of a row, keeping the keys. -/
theorem C8_hydration :
    hydrateValueU none = none ∧
    (∀ v : SValue, hydrateValueU (some v) = some (hydrateValue v)) ∧
    hydrateValue SValue.null = JValue.null ∧
    hydrateValue (.int 0) = .bool false ∧
    hydrateValue (.int 1) = .bool true ∧
    (∀ n : Int, ¬ n = 0 → ¬ n = 1 → hydrateValue (.int n) = .num n) ∧
    (∀ (s : String) (c : Char) (t : List Char) (w : JValue), s.data = c :: t →
      (c = lbrace ∨ c = '[') → jsonParse s = some w → hydrateValue (.text s) = w) ∧
    (∀ (s : String) (c : Char) (t : List Char), s.data = c :: t →
      (c = lbrace ∨ c = '[') → jsonParse s = none → hydrateValue (.text s) = .str s) ∧
    (∀ (s : String) (c : Char) (t : List Char), s.data = c :: t →
      ¬ c = lbrace → ¬ c = '[' → hydrateValue (.text s) = .str s) ∧
    (∀ s : String, s.data = [] → hydrateValue (.text s) = .str s) ∧
    (∀ row : Row, hydrateRow row = row.map (fun kv => (kv.1, hydrateValue kv.2))) := by
  refine ⟨rfl, fun v => rfl, rfl, rfl, rfl, ?_, ?_, ?_, ?_, ?_, fun row => rfl⟩
  · intro n h0 h1
    simp [hydrateValue, h0, h1]
  · intro s c t w hdata hc hparse
    have hb : strHeadIsBrace s = true := by
      rw [strHeadIsBrace_of_data _ _ _ hdata]
      rcases hc with rfl | rfl <;> simp
    rw [hydrateValue_text, hb, if_pos rfl, hparse]
  · intro s c t hdata hc hparse
    have hb : strHeadIsBrace s = true := by
      rw [strHeadIsBrace_of_data _ _ _ hdata]
      rcases hc with rfl | rfl <;> simp
    rw [hydrateValue_text, hb, if_pos rfl, hparse]
  · intro s c t hdata hc1 hc2
    have hb : strHeadIsBrace s = false := by
      rw [strHeadIsBrace_of_data _ _ _ hdata]
      simp [hc1, hc2]
    rw [hydrateValue_text, hb, if_neg (by simp)]
  · intro s hdata
    rw [hydrateValue_text, strHeadIsBrace_of_nil s hdata, if_neg (by simp)]

/-- C8 witness: hydration evaluated at the integer 5 (kept as a number)
and at the malformed stored text `\x7bx` (falls back to the string). -/
theorem C8_hydration_witness :
    hydrateValue (.int 5) = .num 5 ∧
    hydrateValue (.text "\x7bx") = .str "\x7bx" := by
  refine ⟨C8_hydration.2.2.2.2.2.1 5 (by decide) (by decide), ?_⟩
  exact C8_hydration.2.2.2.2.2.2.2.1 "\x7bx" lbrace ['x'] rfl (Or.inl rfl) rfl

/-- C9: delete acknowledgment.  `handleDelete` succeeds iff the engine
reports at least one affected row; zero affected rows yield the 404
"not found" outcome (never a 500); a 500 carrying the engine message occurs
exactly when the engine raises an error; and, over the engine model, the
delete of an id is acknowledged iff some stored row matches it. -/
theorem C9_delete_acknowledgment :
    (∀ o : Except String Nat, handleDeleteResp o = .deleted ↔ ∃ n, o = .ok n ∧ 0 < n) ∧
    handleDeleteResp (.ok 0) = .notFound ∧
    (∀ (o : Except String Nat) (m : String),
      handleDeleteResp o = .dbError m ↔ o = .error m) ∧
    (∀ (db : DB) (tn idv : String),
      handleDeleteResp (.ok (deleteChanges db tn idv)) = .deleted ↔
        ∃ r ∈ db, condMatches r (idColumnOf tn, idv) = true) := by
  have hdel : ∀ o : Except String Nat,
      handleDeleteResp o = .deleted ↔ ∃ n, o = .ok n ∧ 0 < n := by
    intro o
    cases o with
    | error m => simp [handleDeleteResp]
    | ok ch =>
      by_cases hch : ch = 0
      · subst hch
        simp [handleDeleteResp]
      · simp [handleDeleteResp, hch]
        omega
  refine ⟨hdel, rfl, ?_, ?_⟩
  · intro o m
    cases o with
    | error m2 => simp [handleDeleteResp]
    | ok ch =>
      by_cases hch : ch = 0 <;> simp [handleDeleteResp, hch]
  · intro db tn idv
    rw [hdel]
    constructor
    · rintro ⟨n, hn, hpos⟩
      have hch : deleteChanges db tn idv = n := by simpa using hn
      have hlen : 0 < (matchingRows db [(idColumnOf tn, idv)]).length := by
        rw [deleteChanges] at hch
        omega
      obtain ⟨r, hr⟩ := List.exists_mem_of_length_pos hlen
      have hm := List.mem_filter.mp hr
      refine ⟨r, hm.1, ?_⟩
      simpa using hm.2
    · rintro ⟨r, hrdb, hmatch⟩
      refine ⟨deleteChanges db tn idv, rfl, ?_⟩
      have hr : r ∈ matchingRows db [(idColumnOf tn, idv)] :=
        List.mem_filter.mpr ⟨hrdb, by simpa using hmatch⟩
      have hpos := List.length_pos.mpr (List.ne_nil_of_mem hr)
      rw [deleteChanges]
      omega

/-! ### Character-set lemmas for the statement text -/

theorem ident_imp_allowed (c : Char) (h : isIdentChar c = true) :
    allowedSelectChar c = true := by
  simp [allowedSelectChar, h]

theorem select_imp_count (c : Char) (h : allowedSelectChar c = true) :
    allowedCountChar c = true := by
  simp [allowedCountChar, h]

theorem forall_data_append (p : Char → Bool) (a b : String)
    (ha : ∀ c ∈ a.data, p c = true) (hb : ∀ c ∈ b.data, p c = true) :
    ∀ c ∈ (a ++ b).data, p c = true := by
  intro c hc
  rw [string_data_append] at hc
  exact (List.mem_append.mp hc).elim (ha c) (hb c)

theorem joinAnd_chars (p : Char → Bool)
    (hsep : ∀ c ∈ (" AND " : String).data, p c = true) :
    ∀ l : List String, (∀ s ∈ l, ∀ c ∈ s.data, p c = true) →
      ∀ c ∈ (joinAnd l).data, p c = true := by
  intro l
  induction l with
  | nil =>
    intro _ c hc
    simp [joinAnd] at hc
  | cons s tl ih =>
    intro hall
    cases tl with
    | nil => simpa [joinAnd] using hall s (by simp)
    | cons t tl2 =>
      rw [joinAnd]
      exact forall_data_append p _ _
        (forall_data_append p _ _ (hall s (by simp)) hsep)
        (ih (fun x hx => hall x (by simp [hx])))

theorem idColumnOf_chars (tn : String) :
    ∀ c ∈ (idColumnOf tn).data, isIdentChar c = true := by
  by_cases htn : tn = "quizzes"
  · rw [idColumnOf, if_pos htn]
    decide
  · rw [idColumnOf, if_neg htn]
    decide

theorem getConds_cols_ident (tn : String) (id : Option String)
    (qs : List (String × String)) :
    ∀ pr ∈ getConds tn id qs, ∀ c ∈ pr.1.data, isIdentChar c = true := by
  intro pr hpr
  rw [getConds.eq_def] at hpr
  rcases List.mem_append.mp hpr with h | h
  · cases id with
    | none => simp at h
    | some i =>
      by_cases hi : i.isEmpty
      · simp [hi] at h
      · simp only [if_neg hi, List.mem_singleton] at h
        subst h
        exact idColumnOf_chars tn
  · obtain ⟨kv, _, hkv⟩ := List.mem_map.mp h
    rw [← hkv]
    exact sanitizeIdentifier_allIdent kv.1

theorem sanitizeKeyword_chars (tn : String) :
    ∀ c ∈ (sanitizeKeyword tn).data, allowedSelectChar c = true := by
  rw [sanitizeKeyword]
  exact forall_data_append _ _ _
    (forall_data_append _ _ _ (by decide)
      (fun c hc => ident_imp_allowed c (sanitizeIdentifier_allIdent tn c hc)))
    (by decide)

theorem whereClause_chars (tn : String) (id : Option String)
    (qs : List (String × String)) :
    ∀ c ∈ (whereClause (getConds tn id qs)).data, allowedSelectChar c = true := by
  rw [whereClause]
  by_cases he : (getConds tn id qs).isEmpty
  · simp [he]
  · rw [if_neg he]
    refine forall_data_append _ _ _ (by decide) ?_
    refine joinAnd_chars _ (by decide) _ ?_
    intro str hstr
    obtain ⟨pr, hpr, hstr2⟩ := List.mem_map.mp hstr
    rw [← hstr2]
    exact forall_data_append _ _ _
      (fun c hc => ident_imp_allowed c (getConds_cols_ident tn id qs pr hpr c hc))
      (by decide)

theorem orderStr_chars (qs : List (String × String)) :
    ∀ c ∈ ((if orderDesc qs then "DESC" else "ASC" : String)).data,
      allowedSelectChar c = true := by
  by_cases hd : orderDesc qs
  · rw [if_pos hd]
    decide
  · rw [if_neg hd]
    decide

theorem limitSuffix_chars (qs : List (String × String)) :
    ∀ c ∈ ((if limitPos qs then " LIMIT ? OFFSET ?" else "" : String)).data,
      allowedSelectChar c = true := by
  by_cases hl : limitPos qs
  · rw [if_pos hl]
    decide
  · rw [if_neg hl]
    decide

/-- C1: identifier sanitization of the generated statement text.  The
sanitizer emits only characters of the class `[A-Za-z0-9_]`; and since it is
applied to the table name and to every filter and sort column before
concatenation, every character of the SELECT statement text built by
`handleGet` --- and of its COUNT companion --- is an identifier character or
fixed SQL-skeleton punctuation, for every table name, id and query string,
however adversarial. -/
theorem C1_sanitized_statement_text :
    (∀ s : String, ∀ c ∈ (sanitizeIdentifier s).data, isIdentChar c = true) ∧
    (∀ (tn : String) (id : Option String) (qs : List (String × String)),
      ∀ c ∈ (getQueryText tn id qs).data, allowedSelectChar c = true) ∧
    (∀ (tn : String) (id : Option String) (qs : List (String × String)),
      ∀ c ∈ (countText tn id qs).data, allowedCountChar c = true) := by
  refine ⟨sanitizeIdentifier_allIdent, ?_, ?_⟩
  · intro tn id qs
    rw [getQueryText]
    refine forall_data_append _ _ _ (forall_data_append _ _ _ (forall_data_append _ _ _
      (forall_data_append _ _ _ (forall_data_append _ _ _ (forall_data_append _ _ _
        (forall_data_append _ _ _ (by decide) (sanitizeKeyword_chars tn))
        (whereClause_chars tn id qs)) (by decide))
        (fun c hc => ident_imp_allowed c (sanitizeIdentifier_allIdent _ c hc)))
        (by decide)) (orderStr_chars qs)) (limitSuffix_chars qs)
  · intro tn id qs
    rw [countText]
    refine forall_data_append _ _ _ (forall_data_append _ _ _ (by decide)
      (fun c hc => select_imp_count c (sanitizeKeyword_chars tn c hc)))
      (fun c hc => select_imp_count c (whereClause_chars tn id qs c hc))

/-- C1 witness: the sanitizer and the statement-text invariant at the
adversarial table name `users; DROP TABLE x`. -/
theorem C1_sanitized_statement_text_witness :
    isIdentChar 'u' = true ∧ allowedSelectChar '`' = true := by
  refine ⟨C1_sanitized_statement_text.1 "users; DROP TABLE x" 'u' (by decide), ?_⟩
  exact C1_sanitized_statement_text.2.1 "users; DROP TABLE x" none [] '`' (by decide)

/-- C7: the COUNT statement of a paginated collection read shares the very
WHERE clause term of the main SELECT, and binds exactly the filter
parameters in order: when `limit > 0` the main statement binds the filter
parameters followed by the two pagination parameters and the COUNT
statement binds the same list without the final two; when pagination is
off, the COUNT statement binds exactly the main statement's parameters. -/
theorem C7_count_statement :
    ∀ (tn : String) (id : Option String) (qs : List (String × String)),
      countText tn id qs
        = "SELECT COUNT(*) as total FROM " ++ sanitizeKeyword tn
            ++ whereClause (getConds tn id qs) ∧
      getQueryText tn id qs
        = "SELECT * FROM " ++ sanitizeKeyword tn ++ whereClause (getConds tn id qs)
            ++ " ORDER BY " ++ sanitizeIdentifier (effSortBy tn qs) ++ " "
            ++ (if orderDesc qs then "DESC" else "ASC")
            ++ (if limitPos qs then " LIMIT ? OFFSET ?" else "") ∧
      (limitPos qs = true →
        getParams tn id qs
          = (getConds tn id qs).map (fun c => BindVal.sv (.text c.2))
              ++ [(match getLimit qs with | some l => .sv (.int l) | none => .nan),
                  (match getOffset qs with | some o => .sv (.int o) | none => .nan)] ∧
        countParams tn id qs
          = (getConds tn id qs).map (fun c => BindVal.sv (.text c.2))) ∧
      (limitPos qs = false → countParams tn id qs = getParams tn id qs) := by
  intro tn id qs
  refine ⟨rfl, rfl, ?_, ?_⟩
  · intro hpos
    have hparams : getParams tn id qs
        = (getConds tn id qs).map (fun c => BindVal.sv (.text c.2))
            ++ [(match getLimit qs with | some l => .sv (.int l) | none => .nan),
                (match getOffset qs with | some o => .sv (.int o) | none => .nan)] := by
      rw [getParams, if_pos hpos]
    refine ⟨hparams, ?_⟩
    rw [countParams, if_pos hpos, hparams, jsSliceToMinus2]
    have hlen : ((getConds tn id qs).map (fun (c : String × String) => BindVal.sv (SValue.text c.2))
        ++ [(match getLimit qs with
             | some l => BindVal.sv (SValue.int l)
             | none => BindVal.nan),
            (match getOffset qs with
             | some o => BindVal.sv (SValue.int o)
             | none => BindVal.nan)]).length - 2
        = ((getConds tn id qs).map
            (fun (c : String × String) => BindVal.sv (SValue.text c.2))).length := by
      simp
    rw [hlen, List.take_left]
  · intro hneg
    rw [countParams, if_neg (by simp [hneg])]

/-- C7 witness: the COUNT/SELECT parameter relation at the concrete request
`?name=x&limit=2&page=3` on table `items`. -/
theorem C7_count_statement_witness :
    limitPos [("name", "x"), ("limit", "2"), ("page", "3")] = true ∧
    countParams "items" none [("name", "x"), ("limit", "2"), ("page", "3")]
      = [BindVal.sv (.text "x")] := by
  refine ⟨by decide, ?_⟩
  have h := (C7_count_statement "items" none
    [("name", "x"), ("limit", "2"), ("page", "3")]).2.2.1 (by decide)
  rw [h.2]
  decide

/-! ### Payload lookup lemmas -/

theorem jsLookup_of_mem (p : Payload) (k : String) (h : k ∈ keysOf p) :
    ∃ v, jsLookup p k = some v := by
  induction p with
  | nil => simp [keysOf] at h
  | cons kv tl ih =>
    by_cases hk : kv.1 == k
    · exact ⟨kv.2, by simp [jsLookup, List.find?_cons, hk]⟩
    · have hne : ¬ k = kv.1 := fun he => hk (by simp [he])
      have hmem : k ∈ keysOf tl := by
        simp only [keysOf, List.map_cons, List.mem_cons] at h
        rcases h with he | hm
        · exact absurd he hne
        · simpa [keysOf] using hm
      obtain ⟨v, hv⟩ := ih hmem
      refine ⟨v, ?_⟩
      simp only [jsLookup, List.find?_cons, hk]
      simpa [jsLookup] using hv

theorem jsLookup_of_not_mem (p : Payload) (k : String) (h : ¬ k ∈ keysOf p) :
    jsLookup p k = none := by
  induction p with
  | nil => rfl
  | cons kv tl ih =>
    have hk : ¬ kv.1 == k := by
      intro hkk
      refine h ?_
      simp only [keysOf, List.map_cons, List.mem_cons]
      have heq : kv.1 = k := by simpa using hkk
      exact Or.inl heq.symm
    have htl : ¬ k ∈ keysOf tl := by
      intro hm
      refine h ?_
      simp only [keysOf, List.map_cons, List.mem_cons]
      exact Or.inr (by simpa [keysOf] using hm)
    simp only [jsLookup, List.find?_cons, hk]
    simpa [jsLookup] using ih htl

/-! ### C3: the Create response identifier -/

/-- C3 counterexample: on table `items` (identifying column `id`) with the
payload `\x7b"id": 7\x7d` and engine row id 99, the success response carries 99,
not the payload's identifying-column value 7 --- the source reads `data.slug`
for every table. -/
theorem C3_response_id_cex :
    idColumnOf "items" = "id" ∧
    jsLookup [("id", JValue.num 7)] "id" = some (JValue.num 7) ∧
    postRespId [("id", JValue.num 7)] 99 = JValue.num 99 ∧
    ¬ postRespId [("id", JValue.num 7)] 99 = JValue.num 7 := by
  refine ⟨rfl, rfl, rfl, ?_⟩
  intro h
  exact absurd (JValue.num.inj h) (by decide)

/-- C3 amended: for every successful Create, on every table alike, the
response identifier is the payload's `slug` value whenever the payload
contains a truthy one, and the engine-assigned `last_row_id` otherwise
(absent `slug`, or falsy `slug` value). -/
theorem C3_response_id_amended :
    ∀ (p : Payload) (lastRowId : Int),
      (∀ v, jsLookup p "slug" = some v → jsTruthy v = true →
        postRespId p lastRowId = v) ∧
      (jsLookup p "slug" = none → postRespId p lastRowId = .num lastRowId) ∧
      (∀ v, jsLookup p "slug" = some v → jsTruthy v = false →
        postRespId p lastRowId = .num lastRowId) := by
  intro p lastRowId
  refine ⟨?_, ?_, ?_⟩
  · intro v hv ht
    simp [postRespId, hv, ht]
  · intro hnone
    simp [postRespId, hnone]
  · intro v hv ht
    simp [postRespId, hv, ht]

/-- C3 witness: a truthy caller-supplied slug is echoed; a slug-less payload
falls back to the engine row id. -/
theorem C3_response_id_amended_witness :
    postRespId [("slug", JValue.str "my-quiz")] 99 = JValue.str "my-quiz" ∧
    postRespId [("id", JValue.num 7)] 99 = JValue.num 99 := by
  refine ⟨(C3_response_id_amended [("slug", JValue.str "my-quiz")] 99).1
    (JValue.str "my-quiz") rfl (by decide), ?_⟩
  exact (C3_response_id_amended [("id", JValue.num 7)] 99).2.1 rfl

/-! ### C4: Update versus Create validation and coercion -/

/-- C4 counterexample: for the payload `\x7b"a b": 1\x7d` the sanitized column is
`ab`, which is not a payload key; Create binds NULL for it, but Update binds
JavaScript `undefined` (no `undefined`/`null` branch in its coercion), so
the bound parameter lists differ. -/
theorem C4_update_coercion_cex :
    postParams [("a b", JValue.num 1)] = [SValue.null] ∧
    updateParams [("a b", JValue.num 1)] = [BindVal.undef] ∧
    ¬ updateParams [("a b", JValue.num 1)]
        = (postParams [("a b", JValue.num 1)]).map BindVal.sv := by
  refine ⟨rfl, rfl, by decide⟩

/-- C4 amended: Update applies exactly the payload validation of Create,
and coerces every defined value exactly as Create does (objects/arrays to
JSON text, booleans to 1/0, null and scalars unchanged); the two bound
parameter lists agree whenever every sanitized key is itself a payload key.
They differ only on a missing sanitized key (`undefined`): Create binds
NULL, Update passes `undefined` through. -/
theorem C4_update_create_coercion_amended :
    (∀ d : JValue, updateValid d = postValid d) ∧
    (∀ v : JValue, updateCoerceVal (some v) = BindVal.sv (postCoerceVal (some v))) ∧
    updateCoerceVal none = BindVal.undef ∧
    postCoerceVal none = SValue.null ∧
    (∀ p : Payload, (∀ k ∈ keysOf p, sanitizeIdentifier k ∈ keysOf p) →
      updateParams p = (postParams p).map BindVal.sv) := by
  refine ⟨?_, ?_, rfl, rfl, ?_⟩
  · intro d
    cases d <;> rfl
  · intro v
    cases v <;> rfl
  · intro p hmem
    rw [updateParams, postParams, updateColumns, postColumns]
    simp only [List.map_map]
    refine List.map_congr_left ?_
    intro k hk
    obtain ⟨v, hv⟩ := jsLookup_of_mem p (sanitizeIdentifier k) (hmem k hk)
    simp only [Function.comp, hv]
    cases v <;> rfl

/-- C4 witness: on a payload whose keys are already sanitized, Update binds
exactly what Create binds. -/
theorem C4_update_create_coercion_amended_witness :
    updateParams [("ab", JValue.num 1), ("flag", JValue.bool true)]
      = (postParams [("ab", JValue.num 1), ("flag", JValue.bool true)]).map BindVal.sv := by
  exact C4_update_create_coercion_amended.2.2.2.2
    [("ab", JValue.num 1), ("flag", JValue.bool true)] (by decide)

/-! ### C10: Create with a key needing sanitization -/

/-- C10 counterexample: in the payload `\x7b"a b": 1, "ab": 5\x7d` the key
`a b` sanitizes to `ab`, which IS a key of the payload, so the value bound
for the column derived from `a b` is 5 --- not NULL as the claim asserts for
every such key. -/
theorem C10_sanitized_key_collision_cex :
    sanitizeIdentifier "a b" = "ab" ∧
    ("a b" ∈ keysOf [("a b", JValue.num 1), ("ab", JValue.num 5)]) ∧
    postParams [("a b", JValue.num 1), ("ab", JValue.num 5)]
      = [SValue.int 5, SValue.int 5] ∧
    ¬ postCoerceVal (jsLookup [("a b", JValue.num 1), ("ab", JValue.num 5)]
        (sanitizeIdentifier "a b")) = SValue.null := by
  refine ⟨by decide, by decide, rfl, by decide⟩

/-- C10 amended: for every Create payload key containing a character
outside `[A-Za-z0-9_]` whose sanitized form is not itself a payload key,
the lookup under the sanitized key yields `undefined`, the bound value for
that column is NULL (the original value is dropped), and the INSERT still
proceeds with the sanitized column name among its columns. -/
theorem C10_missing_sanitized_key_amended :
    ∀ (p : Payload) (k : String), k ∈ keysOf p →
      (∃ c ∈ k.data, isIdentChar c = false) →
      ¬ sanitizeIdentifier k ∈ keysOf p →
      jsLookup p (sanitizeIdentifier k) = none ∧
      postCoerceVal (jsLookup p (sanitizeIdentifier k)) = SValue.null ∧
      sanitizeIdentifier k ∈ postColumns p := by
  intro p k hk _ hnot
  have hnone := jsLookup_of_not_mem p (sanitizeIdentifier k) hnot
  refine ⟨hnone, ?_, ?_⟩
  · rw [hnone]
    rfl
  · rw [postColumns]
    exact List.mem_map.mpr ⟨k, hk, rfl⟩

/-- C10 witness: the payload `\x7b"a b": 1\x7d` binds NULL for its single
sanitized column `ab`. -/
theorem C10_missing_sanitized_key_amended_witness :
    jsLookup [("a b", JValue.num 1)] (sanitizeIdentifier "a b") = none ∧
    postCoerceVal (jsLookup [("a b", JValue.num 1)] (sanitizeIdentifier "a b"))
      = SValue.null ∧
    sanitizeIdentifier "a b" ∈ postColumns [("a b", JValue.num 1)] := by
  exact C10_missing_sanitized_key_amended [("a b", JValue.num 1)] "a b"
    (by decide) ⟨' ', by decide⟩ (by decide)

/-! ### C2: id lookups versus pagination and sort -/

theorem qsGet_stripReserved (qs : List (String × String)) (k : String)
    (hk : reservedKeys.contains k = true) : qsGet (stripReserved qs) k = none := by
  rw [qsGet, stripReserved]
  have hnone : (qs.filter (fun kv => !reservedKeys.contains kv.1)).find?
      (fun kv => kv.1 == k) = none := by
    rw [List.find?_eq_none]
    intro kv hkv hbeq
    have hmem := List.mem_filter.mp hkv
    have hne : kv.1 = k := by simpa using hbeq
    have hnm : (!reservedKeys.contains kv.1) = true := hmem.2
    rw [hne, hk] at hnm
    simp at hnm
  rw [hnone]
  rfl

/-- C2 counterexample: on a table holding exactly the row with id "1", the
id lookup `GET /items/1?limit=1&page=2` is built with `LIMIT 1 OFFSET 1`
and returns Not Found, while the bare lookup `GET /items/1` returns the
row: pagination parameters change the outcome of an id lookup. -/
theorem C2_pagination_changes_id_lookup_cex :
    execGet [[("id", SValue.text "1")]] "items" (some "1")
        [("limit", "1"), ("page", "2")] = GetResponse.notFound ∧
    execGet [[("id", SValue.text "1")]] "items" (some "1") []
      = GetResponse.single [("id", JValue.str "1")] ∧
    ¬ execGet [[("id", SValue.text "1")]] "items" (some "1")
        [("limit", "1"), ("page", "2")]
      = execGet [[("id", SValue.text "1")]] "items" (some "1") [] := by
  have h1 : execGet [[("id", SValue.text "1")]] "items" (some "1")
      [("limit", "1"), ("page", "2")] = GetResponse.notFound := rfl
  have h2 : execGet [[("id", SValue.text "1")]] "items" (some "1") []
      = GetResponse.single [("id", JValue.str "1")] := rfl
  refine ⟨h1, h2, ?_⟩
  rw [h1, h2]
  simp

/-- C2 amended: an id lookup is insensitive to the sort parameters --- and
to any reserved parameters that do not switch pagination on.  Whenever the
request's `limit` does not parse positive (absent, ≤ 0 or non-numeric) and
at most one stored row matches the conditions, the id lookup returns
exactly what the same request without any reserved parameters returns.
(With `limit > 0` and `page > 1` the outcome can change, see the
counterexample.) -/
theorem C2_id_lookup_amended :
    ∀ (db : DB) (tn i : String) (qs : List (String × String)),
      i.isEmpty = false →
      limitPos qs = false →
      (matchingRows db (getConds tn (some i) qs)).length ≤ 1 →
      execGet db tn (some i) qs = execGet db tn (some i) (stripReserved qs) := by
  intro db tn i qs hid hlim hcount
  have hconds : getConds tn (some i) (stripReserved qs) = getConds tn (some i) qs := by
    rw [getConds.eq_def, getConds.eq_def]
    congr 1
    rw [stripReserved, List.filter_filter]
    simp
  have hlimstr : effLimitStr (stripReserved qs) = "0" := by
    rw [effLimitStr, qsGet_stripReserved _ _ (by decide)]
  have hlimv : getLimit (stripReserved qs) = some 0 := by
    rw [getLimit, hlimstr]
    rfl
  have hlim2 : limitPos (stripReserved qs) = false := by
    rw [limitPos, hlimv]
    rfl
  have hidt : idTruthy (some i) = true := by simp [idTruthy, hid]
  simp only [execGet, hlim, hlim2, hconds, hidt, Bool.false_eq_true, if_false, if_true]
  rcases hM : matchingRows db (getConds tn (some i) qs) with _ | ⟨r, _ | ⟨r2, tl⟩⟩
  · rfl
  · rfl
  · rw [hM] at hcount
    simp at hcount

/-- C2 witness: with sort parameters but no pagination, the id lookup on a
one-row table returns exactly what the bare id lookup returns. -/
theorem C2_id_lookup_amended_witness :
    execGet [[("id", SValue.text "1")]] "items" (some "1")
        [("sort_by", "name"), ("order", "desc")]
      = execGet [[("id", SValue.text "1")]] "items" (some "1")
          (stripReserved [("sort_by", "name"), ("order", "desc")]) := by
  exact C2_id_lookup_amended [[("id", SValue.text "1")]] "items" "1"
    [("sort_by", "name"), ("order", "desc")] (by decide) (by decide) (by decide)

/-! ### C6: pagination arithmetic -/

/-- C6 counterexample: for `GET /items?limit=-5&page=x` on a one-row table,
the parsed page is `NaN` (not clamped to 1: `Math.max(1, NaN)` is `NaN`),
and the echoed `limit` is `-5` --- not `total_items = 1` --- because
`limit || total` only falls back on `0`/`NaN`, not on negative limits. -/
theorem C6_pagination_cex :
    getLimit [("limit", "-5"), ("page", "x")] = some (-5) ∧
    getPage [("limit", "-5"), ("page", "x")] = none ∧
    execGet [[("id", SValue.text "1")]] "items" none [("limit", "-5"), ("page", "x")]
      = GetResponse.listing [[("id", JValue.str "1")]] 1 1 none (-5) ∧
    ¬ ((-5 : Int) = 1) := by
  exact ⟨rfl, rfl, rfl, by decide⟩

/-- C6 amended: pagination arithmetic of `handleGet`.  When the `page`
parameter parses, the page is clamped to a minimum of 1;
`offset = (page - 1) * limit`; with a parsed `limit > 0` the response
metadata is `total_pages = ceil(total_items / limit)` (the code's
`Math.ceil` formula, characterized by the two ceiling inequalities) and
`current_page = page`, with the rows windowed by `LIMIT`/`OFFSET`; with
`limit` not parsing positive there is no pagination (no extra bound
parameters) and `total_pages = 1`; the echoed `limit` equals `total_items`
exactly when `limit` is absent, non-numeric or `0`, and is the parsed
`limit` itself otherwise (in particular a negative `limit` is echoed
verbatim). -/
theorem C6_pagination_amended :
    (∀ (qs : List (String × String)) (p0 : Int),
      jsParseInt (effPageStr qs) = some p0 →
      getPage qs = some (max 1 p0) ∧ 1 ≤ max 1 p0) ∧
    (∀ (qs : List (String × String)) (p l : Int),
      getPage qs = some p → getLimit qs = some l →
      getOffset qs = some ((p - 1) * l)) ∧
    (∀ t l : Int, 0 ≤ t → 0 < l →
      t ≤ l * jsMathCeilDiv t l ∧ l * jsMathCeilDiv t l < t + l) ∧
    (∀ (qs : List (String × String)) (total l : Int),
      getLimit qs = some l → 0 < l →
      totalPagesOf qs total = jsMathCeilDiv total l ∧ limitEchoOf qs total = l) ∧
    (∀ (qs : List (String × String)) (total : Int),
      limitPos qs = false → totalPagesOf qs total = 1) ∧
    (∀ (qs : List (String × String)) (total : Int),
      getLimit qs = none ∨ getLimit qs = some 0 → limitEchoOf qs total = total) ∧
    (∀ (db : DB) (tn : String) (qs : List (String × String)),
      limitPos qs = false →
      execGet db tn none qs
        = GetResponse.listing
            ((sortRows (rowLe (sanitizeIdentifier (effSortBy tn qs)) (orderDesc qs))
                (matchingRows db (getConds tn none qs))).map hydrateRow)
            ((matchingRows db (getConds tn none qs)).length : Int)
            1 (getPage qs)
            (limitEchoOf qs ((matchingRows db (getConds tn none qs)).length : Int)) ∧
        getParams tn none qs
          = (getConds tn none qs).map (fun c => BindVal.sv (.text c.2))) ∧
    (∀ (db : DB) (tn : String) (qs : List (String × String)) (p l : Int),
      getLimit qs = some l → 0 < l → getPage qs = some p →
      execGet db tn none qs
        = GetResponse.listing
            ((((sortRows (rowLe (sanitizeIdentifier (effSortBy tn qs)) (orderDesc qs))
                (matchingRows db (getConds tn none qs))).drop
                  ((p - 1) * l).toNat).take l.toNat).map hydrateRow)
            ((matchingRows db (getConds tn none qs)).length : Int)
            (jsMathCeilDiv ((matchingRows db (getConds tn none qs)).length : Int) l)
            (some p) l) := by
  have hceil : ∀ t l : Int, 0 ≤ t → 0 < l →
      t ≤ l * jsMathCeilDiv t l ∧ l * jsMathCeilDiv t l < t + l := by
    intro t l ht hl
    have hde : l * ((-t).ediv l) + (-t).emod l = -t := Int.ediv_add_emod (-t) l
    have hnn : 0 ≤ (-t).emod l := Int.emod_nonneg (-t) (by omega : l ≠ 0)
    have hlt : (-t).emod l < l := Int.emod_lt_of_pos (-t) hl
    constructor
    · rw [jsMathCeilDiv, mul_neg]
      linarith
    · rw [jsMathCeilDiv, mul_neg]
      linarith
  have hmeta : ∀ (qs : List (String × String)) (total l : Int),
      getLimit qs = some l → 0 < l →
      totalPagesOf qs total = jsMathCeilDiv total l ∧ limitEchoOf qs total = l := by
    intro qs total l hL hlt
    have hpos : limitPos qs = true := by
      rw [limitPos, hL]
      simp [hlt]
    constructor
    · rw [totalPagesOf, if_pos hpos, hL]
    · rw [limitEchoOf, hL]
      simp [show ¬ l = 0 by omega]
  refine ⟨?_, ?_, hceil, hmeta, ?_, ?_, ?_, ?_⟩
  · intro qs p0 h
    rw [getPage, h]
    exact ⟨rfl, le_max_left 1 p0⟩
  · intro qs p l hp hl
    rw [getOffset, hp, hl]
  · intro qs total hlim
    rw [totalPagesOf, if_neg (by simp [hlim])]
  · intro qs total h
    rcases h with h | h
    · rw [limitEchoOf, h]
    · rw [limitEchoOf, h]
      simp
  · intro db tn qs hlim
    constructor
    · have htp : totalPagesOf qs ((matchingRows db (getConds tn none qs)).length : Int)
          = 1 := by
        rw [totalPagesOf, if_neg (by simp [hlim])]
      simp only [execGet, hlim, Bool.false_eq_true, if_false, idTruthy, htp]
    · rw [getParams, if_neg (by simp [hlim])]
      simp
  · intro db tn qs p l hL hlt hP
    have hpos : limitPos qs = true := by
      rw [limitPos, hL]
      simp [hlt]
    have hoff : getOffset qs = some ((p - 1) * l) := by
      rw [getOffset, hP, hL]
    have hm := hmeta qs ((matchingRows db (getConds tn none qs)).length : Int) l hL hlt
    simp only [execGet, hpos, if_true, hL, hoff, hP, hm.1, hm.2, idTruthy]
    rfl

/-- C6 witness: 3 matching rows with `limit=2&page=2` yield the second
window, `total_pages = 2`, `current_page = 2`, echoed limit 2; and the page
parameter `3` parses and clamps to 3. -/
theorem C6_pagination_amended_witness :
    getPage [("limit", "2"), ("page", "3")] = some 3 ∧
    execGet (List.replicate 3 [("id", SValue.text "1")]) "items" none
        [("limit", "2"), ("page", "2")]
      = GetResponse.listing [[("id", JValue.str "1")]] 3 2 (some 2) 2 := by
  constructor
  · have h := (C6_pagination_amended.1 [("limit", "2"), ("page", "3")] 3 rfl).1
    simpa using h
  · have h := C6_pagination_amended.2.2.2.2.2.2.2
      (List.replicate 3 [("id", SValue.text "1")]) "items"
      [("limit", "2"), ("page", "2")] 2 2 rfl (by decide) rfl
    rw [h]
    rfl

end D1Rest